import Mathlib

/-!
Verification of the libdvbdab DAB demultiplexing core.

This file gives a shallow embedding, in Lean, of the parts of the
`L-S-D/libdvbdab` C++ sources that the checked properties are about:

 * the UDP extractor (`src/parsers/udp_extractor.cpp`),
 * stage 1 of the ETI-NA pipeline (`src/etina_pipeline.cpp`),
 * the EDI PF fragment reassembler (`src/dab_parser.cpp`, `PF_Reassembler`),
 * the EDI-to-ETI frame assembler (`src/edi_parser.cpp`, `assembleEtiFrame`),
 * the GSE fragment reassembly (`src/parsers/gse_parser.cpp`),
 * the FIC parser's completion detector and ensemble builder
   (`src/dab_parser.cpp`, `DABParser`), and
 * the ensemble manager's callback dispatch (`src/ensemble_manager.cpp`).

Machine integers are modelled as `Nat` with explicit `% 2^w` where the C++
code truncates; byte buffers are `List Nat` whose elements are byte values.
Bit operations (`<<<`, `>>>`, `|||`, `&&&`, `^^^`) are kept exactly as in the
source and related to arithmetic through the bridge lemmas of the first
section.
-/

namespace Dvbdab

/-! ### Bitwise bridge lemmas -/

/-- Reducing an or bitwise under `% 2^n`. -/
theorem or_mod_two_pow (x y n : Nat) :
    (x ||| y) % 2 ^ n = (x % 2 ^ n) ||| (y % 2 ^ n) := by
  apply Nat.eq_of_testBit_eq
  intro i
  simp only [Nat.testBit_mod_two_pow, Nat.testBit_or]
  by_cases h : i < n <;> simp [h]

/-- An or whose left operand is shifted past the right operand is addition. -/
theorem shiftLeft_or_eq_add (a b k : Nat) (hb : b < 2 ^ k) :
    (a <<< k) ||| b = a * 2 ^ k + b := by
  rw [Nat.shiftLeft_eq, Nat.mul_comm a (2 ^ k), ← Nat.mul_add_lt_is_or hb]

theorem shiftLeft_mod_two_pow_eq_zero (a k n : Nat) (h : n ≤ k) :
    (a <<< k) % 2 ^ n = 0 := by
  rw [Nat.shiftLeft_eq]
  have hk : 2 ^ k = 2 ^ (k - n) * 2 ^ n := by
    rw [← Nat.pow_add]
    congr 1
    omega
  rw [hk, ← Nat.mul_assoc]
  exact Nat.mul_mod_left _ _

/-- Masking with `0xFF`-style constants is reduction `mod 2^n`
(the source writes `x & 0x3F`, `x & 0xFF`, ...). -/
theorem and_two_pow_sub_one (x n : Nat) : x &&& (2 ^ n - 1) = x % 2 ^ n :=
  Nat.and_pow_two_sub_one_eq_mod x n

/-! ### Byte buffers

A byte buffer (`const uint8_t*` plus a length in the C++ sources) is a
`List Nat`; `getB d i` is `d[i]` (reads are always guarded by the source's
own length checks, so the default value 0 is never observable). -/

abbrev Bytes := List Nat

def getB (d : Bytes) (i : Nat) : Nat := d.getD i 0

/-- `(p[i] << 8) | p[i+1]`, as in the sources' big-endian 16-bit reads. -/
def read16 (d : Bytes) (i : Nat) : Nat := (getB d i <<< 8) ||| getB d (i + 1)

/-- `(p[i] << 16) | (p[i+1] << 8) | p[i+2]`. -/
def read24 (d : Bytes) (i : Nat) : Nat :=
  (getB d i <<< 16) ||| (getB d (i + 1) <<< 8) ||| getB d (i + 2)

/-- `(p[i] << 24) | (p[i+1] << 16) | (p[i+2] << 8) | p[i+3]`. -/
def read32 (d : Bytes) (i : Nat) : Nat :=
  (getB d i <<< 24) ||| (getB d (i + 1) <<< 16) ||| (getB d (i + 2) <<< 8) ||| getB d (i + 3)

/-! ### UDP extractor — `src/parsers/udp_extractor.cpp`, `extractUdpFromIpv4` -/

/-- The tuple handed to the UDP callback: destination ip, destination port,
and the payload slice `[udp+8 .. udp+udp_len)` (pointer + length in the
source, materialised as a slice here). -/
structure UdpOut where
  dstIp : Nat
  dstPort : Nat
  payload : Bytes
  deriving Repr, DecidableEq

/-- `extractUdpFromIpv4` (udp_extractor.cpp lines 33-67): returns `none`
exactly where the source returns `false`. -/
def extractUdpFromIpv4 (ip : Bytes) : Option UdpOut :=
  -- Minimum: 20 byte IPv4 header + 8 byte UDP header
  if ip.length < 28 then none
  -- Verify IPv4 version
  else if getB ip 0 >>> 4 ≠ 4 then none
  -- Check protocol (17 = UDP)
  else if getB ip 9 ≠ 17 then none
  else
    let dstIp := read32 ip 16
    -- IP header length (in 32-bit words)
    let ipHdr := (getB ip 0 &&& 0x0F) * 4
    if ipHdr < 20 ∨ ipHdr + 8 > ip.length then none
    else
      let dstPort := read16 ip (ipHdr + 2)
      -- UDP length directly from the UDP header (no truncation)
      let udpLen := read16 ip (ipHdr + 4)
      if udpLen < 8 then none
      else some { dstIp := dstIp, dstPort := dstPort,
                  payload := (ip.drop (ipHdr + 8)).take (udpLen - 8) }

/-! ### ETI-NA stage 1 — `src/etina_pipeline.cpp`, `etina_strip_padding` -/

def OFFSET_DETECTION_PACKET_COUNT : Nat := 5

/-- `count_leading_ff` (etina_pipeline.cpp lines 8-14). -/
def count_leading_ff : Bytes → Nat
  | [] => 0
  | b :: rest => if b = 0xFF then count_leading_ff rest + 1 else 0

/-- `EtinaOffsetState` (etina_pipeline.hpp): `detected_offset = -1` (not yet
detected) is modelled as `none`. -/
structure EtinaOffsetState where
  packet_count : Nat := 0
  min_ff_count : Nat := 255
  detected_offset : Option Nat := none
  deriving Repr, DecidableEq

/-- `etina_strip_padding` (etina_pipeline.cpp lines 17-51).  The source
returns a pointer into `payload` plus `out_len`, or `nullptr`; modelled as
an optional suffix of the payload. -/
def etina_strip_padding (st : EtinaOffsetState) (payload : Bytes) :
    EtinaOffsetState × Option Bytes :=
  match st.detected_offset with
  | some offset =>
      -- Already detected - just strip and return
      if offset ≥ payload.length then (st, none)
      else (st, some (payload.drop offset))
  | none =>
      -- Still detecting
      let ffCount := count_leading_ff payload
      let minFf := if ffCount < st.min_ff_count then ffCount else st.min_ff_count
      let count := st.packet_count + 1
      if count ≥ OFFSET_DETECTION_PACKET_COUNT then
        -- Detection complete
        let st' : EtinaOffsetState :=
          { packet_count := count, min_ff_count := minFf, detected_offset := some minFf }
        if minFf ≥ payload.length then (st', none)
        else (st', some (payload.drop minFf))
      else
        -- Still detecting, don't output yet
        ({ packet_count := count, min_ff_count := minFf, detected_offset := none }, none)

/-- Run stage 1 over a sequence of payloads, collecting the per-payload
result (`none` = the source returned `nullptr`). -/
def etinaRun (st : EtinaOffsetState) : List Bytes → EtinaOffsetState × List (Option Bytes)
  | [] => (st, [])
  | p :: ps =>
      let (st', out) := etina_strip_padding st p
      let (stF, outs) := etinaRun st' ps
      (stF, out :: outs)

theorem count_leading_ff_le_length (p : Bytes) : count_leading_ff p ≤ p.length := by
  induction p with
  | nil => simp [count_leading_ff]
  | cons b rest ih =>
      simp only [count_leading_ff, List.length_cons]
      split <;> omega

theorem if_lt_min (x y : Nat) : (if x < y then x else y) = min x y := by
  split <;> omega

theorem etinaRun_cons (st : EtinaOffsetState) (p : Bytes) (ps : List Bytes) :
    etinaRun st (p :: ps) =
      ((etinaRun (etina_strip_padding st p).1 ps).1,
       (etina_strip_padding st p).2 :: (etinaRun (etina_strip_padding st p).1 ps).2) := by
  rcases h : etina_strip_padding st p with ⟨st', out⟩
  rcases h2 : etinaRun st' ps with ⟨stF, outs⟩
  simp [etinaRun, h, h2]

theorem strip_detecting (n m : Nat) (p : Bytes) (hc : n + 1 < 5) :
    etina_strip_padding ⟨n, m, none⟩ p =
      (⟨n + 1, min (count_leading_ff p) m, none⟩, none) := by
  simp only [etina_strip_padding, OFFSET_DETECTION_PACKET_COUNT, if_lt_min]
  rw [if_neg (by omega)]

theorem strip_fifth_fst (n m : Nat) (p : Bytes) (hc : n + 1 ≥ 5) :
    (etina_strip_padding ⟨n, m, none⟩ p).1 =
      ⟨n + 1, min (count_leading_ff p) m, some (min (count_leading_ff p) m)⟩ := by
  simp only [etina_strip_padding, OFFSET_DETECTION_PACKET_COUNT, if_lt_min]
  rw [if_pos (by omega)]
  split <;> rfl

/-- C6 — Stage 1 of the ETI-NA pipeline observes the first
`OFFSET_DETECTION_PACKET_COUNT = 5` payload fragments and records the
minimum count of leading `0xFF` bytes across them as `detected_offset`;
it produces no output before detection completes, and thereafter strips
exactly `detected_offset` bytes from the head of every payload, so every
subsequent stripped payload is exactly `detected_offset` bytes shorter
than the input payload.  (Payloads are adaptation-stripped TS payloads,
hence at most 184 bytes; a payload not longer than the offset yields no
output at all.) -/
theorem etina_stage1_strip_spec (ps : List Bytes) (h5 : ps.length = 5)
    (hshort : ∀ p ∈ ps, p.length ≤ 184) :
    ((etinaRun {} (ps.take 4)).2 = List.replicate 4 none ∧
     (etinaRun {} (ps.take 4)).1.detected_offset = none) ∧
    (∃ m, (etinaRun {} ps).1.detected_offset = some m ∧
      (∀ p ∈ ps, m ≤ count_leading_ff p) ∧ (∃ p ∈ ps, m = count_leading_ff p)) ∧
    (∀ q : Bytes, ∀ m, (etinaRun {} ps).1.detected_offset = some m →
      (m < q.length →
        (etina_strip_padding (etinaRun {} ps).1 q).2 = some (q.drop m) ∧
        (q.drop m).length + m = q.length) ∧
      (q.length ≤ m → (etina_strip_padding (etinaRun {} ps).1 q).2 = none)) := by
  match ps, h5 with
  | [a, b, c, d, e], _ =>
    have ha := count_leading_ff_le_length a
    have hb := count_leading_ff_le_length b
    have hc := count_leading_ff_le_length c
    have hd := count_leading_ff_le_length d
    have he := count_leading_ff_le_length e
    have ha' : a.length ≤ 184 := hshort a (by simp)
    have hb' : b.length ≤ 184 := hshort b (by simp)
    have hc' : c.length ≤ 184 := hshort c (by simp)
    have hd' : d.length ≤ 184 := hshort d (by simp)
    have he' : e.length ≤ 184 := hshort e (by simp)
    set fa := count_leading_ff a with hfa
    set fb := count_leading_ff b with hfb
    set fc := count_leading_ff c with hfc
    set fd := count_leading_ff d with hfd
    set fe := count_leading_ff e with hfe
    have hinit : ({} : EtinaOffsetState) = ⟨0, 255, none⟩ := rfl
    have e1 := strip_detecting 0 255 a (by omega)
    have e2 := strip_detecting 1 (min fa 255) b (by omega)
    have e3 := strip_detecting 2 (min fb (min fa 255)) c (by omega)
    have e4 := strip_detecting 3 (min fc (min fb (min fa 255))) d (by omega)
    have e5 := strip_fifth_fst 4 (min fd (min fc (min fb (min fa 255)))) e (by omega)
    have htake : (ps : List Bytes) → ps = [a, b, c, d, e] → ps.take 4 = [a, b, c, d] := by
      intro ps h
      subst h
      rfl
    have hfour : etinaRun {} [a, b, c, d] =
        (⟨4, min fd (min fc (min fb (min fa 255))), none⟩, [none, none, none, none]) := by
      rw [hinit, etinaRun_cons, e1]
      rw [etinaRun_cons, e2]
      rw [etinaRun_cons, e3]
      rw [etinaRun_cons, e4]
      rfl
    have hstate : (etinaRun {} [a, b, c, d, e]).1 =
        ⟨5, min fe (min fd (min fc (min fb (min fa 255)))),
          some (min fe (min fd (min fc (min fb (min fa 255)))))⟩ := by
      rw [hinit, etinaRun_cons, e1]
      rw [etinaRun_cons, e2]
      rw [etinaRun_cons, e3]
      rw [etinaRun_cons, e4]
      rw [etinaRun_cons]
      simp only [etinaRun]
      exact e5
    refine ⟨?_, ?_, ?_⟩
    · rw [htake [a, b, c, d, e] rfl, hfour]
      exact ⟨rfl, rfl⟩
    · refine ⟨_, by rw [hstate], ?_, ?_⟩
      · intro p hp
        simp only [List.mem_cons, List.not_mem_nil, or_false] at hp
        rcases hp with h | h | h | h | h <;> subst h <;> omega
      · have : min fe (min fd (min fc (min fb (min fa 255)))) = fa ∨
            min fe (min fd (min fc (min fb (min fa 255)))) = fb ∨
            min fe (min fd (min fc (min fb (min fa 255)))) = fc ∨
            min fe (min fd (min fc (min fb (min fa 255)))) = fd ∨
            min fe (min fd (min fc (min fb (min fa 255)))) = fe := by
          omega
        rcases this with h | h | h | h | h
        · exact ⟨a, by simp, by rw [← hfa]; exact h⟩
        · exact ⟨b, by simp, by rw [← hfb]; exact h⟩
        · exact ⟨c, by simp, by rw [← hfc]; exact h⟩
        · exact ⟨d, by simp, by rw [← hfd]; exact h⟩
        · exact ⟨e, by simp, by rw [← hfe]; exact h⟩
    · intro q m hm
      rw [hstate] at hm
      simp only [Option.some.injEq] at hm
      subst hm
      constructor
      · intro hlt
        rw [hstate]
        simp only [etina_strip_padding]
        rw [if_neg (by omega)]
        refine ⟨rfl, ?_⟩
        rw [List.length_drop]
        omega
      · intro hle
        rw [hstate]
        simp only [etina_strip_padding]
        rw [if_pos (by omega)]

theorem etina_stage1_strip_spec_witness :
    (etinaRun {} [[255, 255, 0], [255, 1], [0, 0], [255, 255, 255, 4], [255, 7]]).1.detected_offset
      = some 0 := by
  obtain ⟨-, ⟨m, hm, hle, -⟩, -⟩ :=
    etina_stage1_strip_spec [[255, 255, 0], [255, 1], [0, 0], [255, 255, 255, 4], [255, 7]]
      (by decide) (by decide)
  have h0 : m ≤ 0 := by
    have := hle [0, 0] (by decide)
    simpa [count_leading_ff] using this
  have hz : m = 0 := by omega
  rw [hz] at hm
  exact hm

/-- A 28-byte IPv4+UDP datagram whose UDP length field says 100, far more
than the 8 bytes remaining after the 20-byte IP header. -/
def udpOverlongExample : Bytes :=
  [0x45, 0, 0, 28, 0, 0, 0, 0, 64, 17, 0, 0,
   10, 0, 0, 1, 239, 199, 2, 1,
   0x30, 0x39, 0x04, 0xD2, 0, 100, 0, 0]

/-- C7 counterexample — the claim says the extractor produces no output for a
datagram whose `udp_len` exceeds the bytes remaining after the IP header;
`udpOverlongExample` has `udp_len = 100 > 8` remaining bytes, yet the
extractor accepts it (the source reads the UDP length "directly from UDP
header (no truncation)" and never compares it with the buffer length). -/
theorem extractUdp_accepts_overlong_udp_len :
    (extractUdpFromIpv4 udpOverlongExample).isSome = true ∧
    udpOverlongExample.length = 28 ∧
    read16 udpOverlongExample 24 = 100 ∧
    read16 udpOverlongExample 24 >
      udpOverlongExample.length - (getB udpOverlongExample 0 &&& 0x0F) * 4 := by
  refine ⟨?_, by decide, by decide, by decide⟩
  decide

/-- C7 (amended) — the UDP extractor produces no output tuple for any input
datagram that is shorter than 28 bytes or has `udp_len < 8`; every accepted
datagram yields the payload slice from `udp_hdr+8` to `udp_hdr+udp_len`.
(The source performs no check of `udp_len` against the bytes remaining
after the IP header; an over-long `udp_len` is accepted as-is.) -/
theorem extractUdp_reject_accept_spec (d : Bytes) :
    (d.length < 28 → extractUdpFromIpv4 d = none) ∧
    (read16 d ((getB d 0 &&& 0x0F) * 4 + 4) < 8 → extractUdpFromIpv4 d = none) ∧
    (∀ out, extractUdpFromIpv4 d = some out →
      out.dstIp = read32 d 16 ∧
      out.dstPort = read16 d ((getB d 0 &&& 0x0F) * 4 + 2) ∧
      out.payload = (d.drop ((getB d 0 &&& 0x0F) * 4 + 8)).take
        (read16 d ((getB d 0 &&& 0x0F) * 4 + 4) - 8)) := by
  refine ⟨?_, ?_, ?_⟩
  · intro h
    rw [extractUdpFromIpv4, if_pos h]
  · intro h
    simp only [extractUdpFromIpv4]
    split_ifs <;> first | rfl | omega
  · intro out h
    simp only [extractUdpFromIpv4] at h
    split_ifs at h
    all_goals first
      | (simp only [Option.some.injEq] at h
         rw [← h]
         exact ⟨rfl, rfl, rfl⟩)
      | simp at h

theorem extractUdp_reject_accept_spec_witness :
    ([0x45, 0, 17] : Bytes).length < 28 ∧ extractUdpFromIpv4 [0x45, 0, 17] = none :=
  ⟨by decide, (extractUdp_reject_accept_spec [0x45, 0, 17]).1 (by decide)⟩

/-! ### Association lists

`std::map` keyed by integers.  Lookup finds the entry with the given key;
insert replaces an existing entry or adds a new one (`map[k] = v`).  The
C++ map iterates in key order; the embedding only ever iterates maps where
the result is order-independent (counts, lookups) or where the source
re-sorts explicitly (`build_ensemble`), so entries are kept in insertion
order here. -/

def alookup {α : Type} : List (Nat × α) → Nat → Option α
  | [], _ => none
  | (k', v') :: rest, k => if k = k' then some v' else alookup rest k

def ainsert {α : Type} : List (Nat × α) → Nat → α → List (Nat × α)
  | [], k, v => [(k, v)]
  | (k', v') :: rest, k, v =>
      if k = k' then (k, v) :: rest else (k', v') :: ainsert rest k v

theorem alookup_ainsert {α : Type} (l : List (Nat × α)) (k : Nat) (v : α) :
    alookup (ainsert l k v) k = some v := by
  induction l with
  | nil => simp [alookup, ainsert]
  | cons e rest ih =>
      obtain ⟨k', v'⟩ := e
      by_cases h : k = k' <;> simp [alookup, ainsert, h, ih]

theorem alookup_ainsert_ne {α : Type} (l : List (Nat × α)) (k k' : Nat) (v : α)
    (h : k' ≠ k) : alookup (ainsert l k v) k' = alookup l k' := by
  induction l with
  | nil => simp [alookup, ainsert, h]
  | cons e rest ih =>
      obtain ⟨k'', v''⟩ := e
      by_cases h1 : k = k''
      · subst h1
        simp [alookup, ainsert, h]
      · by_cases h2 : k' = k'' <;> simp [alookup, ainsert, h1, h2, ih]

theorem length_ainsert_of_none {α : Type} (l : List (Nat × α)) (k : Nat) (v : α)
    (h : alookup l k = none) : (ainsert l k v).length = l.length + 1 := by
  induction l with
  | nil => simp [ainsert]
  | cons e rest ih =>
      obtain ⟨k', v'⟩ := e
      by_cases h1 : k = k'
      · simp [alookup, h1] at h
      · simp only [alookup, if_neg h1] at h
        simp [ainsert, h1, ih h]

theorem length_ainsert_of_some {α : Type} (l : List (Nat × α)) (k : Nat) (v w : α)
    (h : alookup l k = some w) : (ainsert l k v).length = l.length := by
  induction l with
  | nil => simp [alookup] at h
  | cons e rest ih =>
      obtain ⟨k', v'⟩ := e
      by_cases h1 : k = k'
      · simp [ainsert, h1]
      · simp only [alookup, if_neg h1] at h
        simp [ainsert, h1, ih h]

/-- Insert-if-absent for a set of keys (`std::map` whose values the
embedding does not need, e.g. the label maps). -/
def linsert (l : List Nat) (k : Nat) : List Nat := if k ∈ l then l else l ++ [k]

/-! ### FIC parser — `src/dab_parser.cpp`, `DABParser`

The FIG byte-level decoders (`process_fic` / `process_fib` / `process_fig*`)
update five pieces of parser state; a processed frame's FIC content is
modelled as the list of those primitive updates (`FigEv`), and
`dabProcessFrame` is the translation of `DABParser::process_eti_frame`
lines 157-270 given that content.  A frame that fails the early checks of
lines 163-199 (bad sync, no FIC, FIC overrunning the frame) leaves all of
the modelled state unchanged in the source and is simply not fed here. -/

/-- `DABParser::SubChannel` (dab_parser.h). -/
structure SubCh where
  subchid : Nat
  startaddr : Nat := 0
  subchsz : Nat := 0
  bitrate : Nat := 0
  eepprot : Nat := 0
  protlvl : Nat := 0
  dabplus : Nat := 0
  deriving Repr, DecidableEq

/-- `DABService` (dab_parser.h): the label is tracked as presence only, and
the sub-channel-derived fields are grouped behind `subch`: `build_ensemble`
copies them from the sub-channel map entry when the lookup succeeds and
leaves them unset (indeterminate in C++) otherwise, modelled as `none`. -/
structure DABSvc where
  sid : Nat
  hasLabel : Bool
  subch : Option SubCh
  deriving Repr, DecidableEq

/-- `DABEnsemble` (dab_parser.h); the label string is tracked as presence. -/
structure DABEns where
  eid : Nat := 0
  hasLabel : Bool := false
  services : List DABSvc := []
  deriving Repr, DecidableEq

/-- The `DABParser` fields read or written by `process_eti_frame` lines
157-270 and `build_ensemble` (values are as set by `DABParser::reset`). -/
structure DABParserState where
  labelled : Bool := false
  basic_ready : Bool := false
  subchannels : List (Nat × SubCh) := []
  /-- `service_map_`: sid ↦ `primary_subch`.  FIG 0/2 inserts an entry only
  when `info.primary_subch >= 0` (dab_parser.cpp line 493), so the stored
  value is a `Nat`. -/
  service_map : List (Nat × Nat) := []
  service_labels : List Nat := []
  ensemble_label : Bool := false
  ensemble_id : Nat := 0
  last_basic_service_count : Nat := 0
  basic_stable_frames : Nat := 0
  last_service_count : Nat := 0
  stable_frames : Nat := 0
  ensemble : DABEns := {}
  deriving Repr, DecidableEq

/-- Primitive state updates performed by the FIG handlers:

 * `addSubch sc` — FIG 0/1, `subchannels_[subchid] = sc` (line 421);
 * `addService sid p` — FIG 0/2, `service_map_[sid] = info` with
   `info.primary_subch = p ≥ 0` (line 494);
 * `svcLabel sid` — FIG 1/1, `service_labels_[sid] = ...` (line 728);
 * `ensLabel eid` — FIG 1/0, sets `ensemble_id_` and a non-empty
   `ensemble_label_` (lines 682-694);
 * `setEid eid` — FIG 0/0, `ensemble_id_ = eid` (line 371). -/
inductive FigEv where
  | addSubch (sc : SubCh)
  | addService (sid : Nat) (primarySubch : Nat)
  | svcLabel (sid : Nat)
  | ensLabel (eid : Nat)
  | setEid (eid : Nat)
  deriving Repr, DecidableEq

def applyEv (st : DABParserState) : FigEv → DABParserState
  | .addSubch sc => { st with subchannels := ainsert st.subchannels sc.subchid sc }
  | .addService sid p => { st with service_map := ainsert st.service_map sid p }
  | .svcLabel sid => { st with service_labels := linsert st.service_labels sid }
  | .ensLabel eid => { st with ensemble_id := eid, ensemble_label := true }
  | .setEid eid => { st with ensemble_id := eid }

def applyEvs (st : DABParserState) (evs : List FigEv) : DABParserState :=
  evs.foldl applyEv st

/-- `std::sort(..., by sid)` of dab_parser.cpp lines 781-782, as an
insertion sort: the sids are distinct (`service_map_` keys), so every
comparison sort produces the same list. -/
def svcInsert (s : DABSvc) : List DABSvc → List DABSvc
  | [] => [s]
  | t :: rest => if s.sid ≤ t.sid then s :: t :: rest else t :: svcInsert s rest

def svcSortBySid : List DABSvc → List DABSvc
  | [] => []
  | s :: rest => svcInsert s (svcSortBySid rest)

/-- `DABParser::build_ensemble` (dab_parser.cpp lines 753-787).  Entries
with `primary_subch < 0` are skipped in the source; no such entry exists
(see `service_map`).  A service whose primary sub-channel is absent from
`subchannels_` is still pushed, with its sub-channel fields unset.  The
source finishes with `std::sort` by sid. -/
def build_ensemble (st : DABParserState) : DABEns :=
  { eid := st.ensemble_id,
    hasLabel := st.ensemble_label,
    services := svcSortBySid (st.service_map.map (fun e =>
        { sid := e.1,
          hasLabel := st.service_labels.contains e.1,
          subch := alookup st.subchannels e.2 })) }

theorem mem_svcInsert (a s : DABSvc) (l : List DABSvc) :
    a ∈ svcInsert s l ↔ a = s ∨ a ∈ l := by
  induction l with
  | nil => simp [svcInsert]
  | cons t rest ih =>
      simp only [svcInsert]
      split_ifs <;> simp [ih] <;> tauto

theorem mem_svcSortBySid (a : DABSvc) (l : List DABSvc) :
    a ∈ svcSortBySid l ↔ a ∈ l := by
  induction l with
  | nil => simp [svcSortBySid]
  | cons t rest ih => simp [svcSortBySid, mem_svcInsert, ih]

/-- Basic-ready block of `DABParser::process_eti_frame`
(dab_parser.cpp lines 208-234). -/
def dabBasicReadyStep (st : DABParserState) : DABParserState :=
  if ¬ st.basic_ready ∧ st.service_map ≠ [] then
    -- Count services with valid subchannel mapping
    let valid := (st.service_map.filter
      (fun e => (alookup st.subchannels e.2).isSome)).length
    -- Track stability of valid service count (need 3 frames stable)
    if valid > 0 then
      let st : DABParserState :=
        if valid ≠ st.last_basic_service_count then
          { st with last_basic_service_count := valid, basic_stable_frames := 0 }
        else { st with basic_stable_frames := st.basic_stable_frames + 1 }
      if st.basic_stable_frames ≥ 3 then { st with basic_ready := true } else st
    else st
  else st

/-- Completion block of `DABParser::process_eti_frame`
(dab_parser.cpp lines 236-267). -/
def dabCompletionStep (st : DABParserState) : DABParserState :=
  if st.service_map ≠ [] then
    let labelledCount := (st.service_map.filter
      (fun e => st.service_labels.contains e.1)).length
    let hasEnsembleLabel := st.ensemble_label
    -- Track service count stability - require same count for 10 frames
    let st : DABParserState :=
      if st.service_map.length ≠ st.last_service_count then
        { st with last_service_count := st.service_map.length, stable_frames := 0 }
      else { st with stable_frames := st.stable_frames + 1 }
    -- Complete ONLY when ALL services have labels AND ensemble has label
    -- AND service count has been stable for at least 10 frames
    let all_labelled : Bool := (labelledCount == st.service_map.length) && hasEnsembleLabel
    let stable : Bool := decide (st.stable_frames ≥ 10)
    if all_labelled && stable then { st with labelled := true } else st
  else st

/-- Build ensemble on each frame (dab_parser.cpp lines 203-206). -/
def dabEnsembleUpd (st : DABParserState) : DABParserState :=
  if st.service_map ≠ [] then { st with ensemble := build_ensemble st } else st

/-- `DABParser::process_eti_frame` (dab_parser.cpp lines 157-270) for one
processed frame whose FIC content performs the updates `evs`. -/
def dabProcessFrame (st : DABParserState) (evs : List FigEv) : DABParserState :=
  -- Already complete - skip further processing (line 160)
  if st.labelled then st
  else dabCompletionStep (dabBasicReadyStep (dabEnsembleUpd (applyEvs st evs)))

/-- A run of the FIC parser over the (FIC contents of the) processed
frames of a stream. -/
def dabRun (frames : List (List FigEv)) : DABParserState :=
  frames.foldl dabProcessFrame {}

theorem length_le_length_ainsert {α : Type} (l : List (Nat × α)) (k : Nat) (v : α) :
    l.length ≤ (ainsert l k v).length := by
  induction l with
  | nil => simp [ainsert]
  | cons e rest ih =>
      obtain ⟨k', v'⟩ := e
      by_cases h : k = k' <;> simp [ainsert, h] <;> omega

theorem applyEv_preserved (st : DABParserState) (e : FigEv) :
    (applyEv st e).labelled = st.labelled ∧
    (applyEv st e).basic_ready = st.basic_ready ∧
    (applyEv st e).last_service_count = st.last_service_count ∧
    (applyEv st e).stable_frames = st.stable_frames ∧
    (applyEv st e).last_basic_service_count = st.last_basic_service_count ∧
    (applyEv st e).basic_stable_frames = st.basic_stable_frames ∧
    (applyEv st e).ensemble = st.ensemble := by
  cases e <;> exact ⟨rfl, rfl, rfl, rfl, rfl, rfl, rfl⟩

theorem applyEv_sm_length (st : DABParserState) (e : FigEv) :
    st.service_map.length ≤ (applyEv st e).service_map.length := by
  cases e <;> simp [applyEv]
  exact length_le_length_ainsert _ _ _

theorem applyEvs_preserved (st : DABParserState) (evs : List FigEv) :
    (applyEvs st evs).labelled = st.labelled ∧
    (applyEvs st evs).basic_ready = st.basic_ready ∧
    (applyEvs st evs).last_service_count = st.last_service_count ∧
    (applyEvs st evs).stable_frames = st.stable_frames ∧
    (applyEvs st evs).last_basic_service_count = st.last_basic_service_count ∧
    (applyEvs st evs).basic_stable_frames = st.basic_stable_frames ∧
    (applyEvs st evs).ensemble = st.ensemble := by
  induction evs generalizing st with
  | nil => exact ⟨rfl, rfl, rfl, rfl, rfl, rfl, rfl⟩
  | cons e rest ih =>
      have h1 := applyEv_preserved st e
      have h2 := ih (applyEv st e)
      simp only [applyEvs, List.foldl_cons] at h2 ⊢
      exact ⟨h2.1.trans h1.1, h2.2.1.trans h1.2.1, h2.2.2.1.trans h1.2.2.1,
        h2.2.2.2.1.trans h1.2.2.2.1, h2.2.2.2.2.1.trans h1.2.2.2.2.1,
        h2.2.2.2.2.2.1.trans h1.2.2.2.2.2.1, h2.2.2.2.2.2.2.trans h1.2.2.2.2.2.2⟩

theorem applyEvs_sm_length (st : DABParserState) (evs : List FigEv) :
    st.service_map.length ≤ (applyEvs st evs).service_map.length := by
  induction evs generalizing st with
  | nil => exact Nat.le_refl _
  | cons e rest ih =>
      simp only [applyEvs, List.foldl_cons] at ih ⊢
      exact (applyEv_sm_length st e).trans (ih (applyEv st e))

/-- The basic-ready block only writes `basic_ready` and its two stability
counters. -/
theorem dabBasicReadyStep_preserved (st : DABParserState) :
    (dabBasicReadyStep st).labelled = st.labelled ∧
    (dabBasicReadyStep st).service_map = st.service_map ∧
    (dabBasicReadyStep st).service_labels = st.service_labels ∧
    (dabBasicReadyStep st).ensemble_label = st.ensemble_label ∧
    (dabBasicReadyStep st).last_service_count = st.last_service_count ∧
    (dabBasicReadyStep st).stable_frames = st.stable_frames ∧
    (dabBasicReadyStep st).ensemble = st.ensemble ∧
    (dabBasicReadyStep st).subchannels = st.subchannels := by
  unfold dabBasicReadyStep
  dsimp only
  split_ifs <;> exact ⟨rfl, rfl, rfl, rfl, rfl, rfl, rfl, rfl⟩

/-- The completion block only writes `labelled` and its two stability
counters. -/
theorem dabCompletionStep_preserved (st : DABParserState) :
    (dabCompletionStep st).service_map = st.service_map ∧
    (dabCompletionStep st).service_labels = st.service_labels ∧
    (dabCompletionStep st).ensemble_label = st.ensemble_label ∧
    (dabCompletionStep st).basic_ready = st.basic_ready ∧
    (dabCompletionStep st).ensemble = st.ensemble ∧
    (dabCompletionStep st).subchannels = st.subchannels ∧
    (dabCompletionStep st).last_basic_service_count = st.last_basic_service_count ∧
    (dabCompletionStep st).basic_stable_frames = st.basic_stable_frames := by
  unfold dabCompletionStep
  dsimp only
  split_ifs <;> exact ⟨rfl, rfl, rfl, rfl, rfl, rfl, rfl, rfl⟩

theorem dabProcessFrame_of_labelled (st : DABParserState) (evs : List FigEv)
    (h : st.labelled = true) : dabProcessFrame st evs = st := by
  unfold dabProcessFrame
  rw [if_pos h]

theorem dabRun_take_succ (frames : List (List FigEv)) (m : Nat) (hm : m < frames.length) :
    dabRun (frames.take (m + 1)) = dabProcessFrame (dabRun (frames.take m)) (frames.get ⟨m, hm⟩) := by
  rw [dabRun, dabRun, List.take_succ, List.foldl_append]
  congr 1
  simp [List.getElem?_eq_getElem hm]

/-- The ensemble rebuild only writes the `ensemble` field. -/
theorem dabEnsembleUpd_preserved (st : DABParserState) :
    (dabEnsembleUpd st).labelled = st.labelled ∧
    (dabEnsembleUpd st).basic_ready = st.basic_ready ∧
    (dabEnsembleUpd st).service_map = st.service_map ∧
    (dabEnsembleUpd st).service_labels = st.service_labels ∧
    (dabEnsembleUpd st).ensemble_label = st.ensemble_label ∧
    (dabEnsembleUpd st).last_service_count = st.last_service_count ∧
    (dabEnsembleUpd st).stable_frames = st.stable_frames ∧
    (dabEnsembleUpd st).subchannels = st.subchannels ∧
    (dabEnsembleUpd st).last_basic_service_count = st.last_basic_service_count ∧
    (dabEnsembleUpd st).basic_stable_frames = st.basic_stable_frames := by
  unfold dabEnsembleUpd
  split_ifs <;> exact ⟨rfl, rfl, rfl, rfl, rfl, rfl, rfl, rfl, rfl, rfl⟩

theorem dabProcessFrame_eq (st : DABParserState) (evs : List FigEv)
    (h : st.labelled = false) :
    dabProcessFrame st evs =
      dabCompletionStep (dabBasicReadyStep (dabEnsembleUpd (applyEvs st evs))) := by
  unfold dabProcessFrame
  rw [if_neg (by simp [h])]

/-- The state reaching the completion block: its service map, labels and
ensemble label are the ones after the frame's FIG updates; its completion
stability counters are the previous frame's. -/
theorem dabPreCompletion_fields (st : DABParserState) (evs : List FigEv) :
    (dabBasicReadyStep (dabEnsembleUpd (applyEvs st evs))).service_map
        = (applyEvs st evs).service_map ∧
    (dabBasicReadyStep (dabEnsembleUpd (applyEvs st evs))).service_labels
        = (applyEvs st evs).service_labels ∧
    (dabBasicReadyStep (dabEnsembleUpd (applyEvs st evs))).ensemble_label
        = (applyEvs st evs).ensemble_label ∧
    (dabBasicReadyStep (dabEnsembleUpd (applyEvs st evs))).last_service_count
        = st.last_service_count ∧
    (dabBasicReadyStep (dabEnsembleUpd (applyEvs st evs))).stable_frames
        = st.stable_frames ∧
    (dabBasicReadyStep (dabEnsembleUpd (applyEvs st evs))).labelled = st.labelled := by
  have hB := dabBasicReadyStep_preserved (dabEnsembleUpd (applyEvs st evs))
  have hE := dabEnsembleUpd_preserved (applyEvs st evs)
  have hA := applyEvs_preserved st evs
  exact ⟨hB.2.1.trans hE.2.2.1,
    hB.2.2.1.trans hE.2.2.2.1,
    hB.2.2.2.1.trans hE.2.2.2.2.1,
    (hB.2.2.2.2.1.trans hE.2.2.2.2.2.1).trans hA.2.2.1,
    (hB.2.2.2.2.2.1.trans hE.2.2.2.2.2.2.1).trans hA.2.2.2.1,
    (hB.1.trans hE.1).trans hA.1⟩

/-- When the parser is not yet complete, a processed frame's service map is
the service map after applying the frame's FIG updates. -/
theorem dabProcessFrame_sm (st : DABParserState) (evs : List FigEv)
    (h : st.labelled = false) :
    (dabProcessFrame st evs).service_map = (applyEvs st evs).service_map := by
  rw [dabProcessFrame_eq st evs h, (dabCompletionStep_preserved _).1]
  exact (dabPreCompletion_fields st evs).1

/-- The completion block, written out for a state with a non-empty service
map (dab_parser.cpp lines 238-266). -/
theorem dabCompletionStep_eq (st : DABParserState) (h : st.service_map ≠ []) :
    dabCompletionStep st =
      (let st1 : DABParserState :=
        if st.service_map.length ≠ st.last_service_count then
          { st with last_service_count := st.service_map.length, stable_frames := 0 }
        else { st with stable_frames := st.stable_frames + 1 }
       if ((st.service_map.filter (fun e => st.service_labels.contains e.1)).length
            == st.service_map.length) && st.ensemble_label && decide (st1.stable_frames ≥ 10)
       then { st1 with labelled := true } else st1) := by
  unfold dabCompletionStep
  rw [if_pos h]
  dsimp only
  split_ifs <;> rfl

theorem dabCompletionStep_of_empty (st : DABParserState) (h : st.service_map = []) :
    dabCompletionStep st = st := by
  unfold dabCompletionStep
  rw [if_neg (by simp [h])]

/-- Completion step when the service count changed: the stability window
restarts, and completion cannot fire on this frame. -/
theorem dabCompletionStep_of_count_ne (st : DABParserState) (hne : st.service_map ≠ [])
    (h : st.service_map.length ≠ st.last_service_count) :
    (dabCompletionStep st).last_service_count = st.service_map.length ∧
    (dabCompletionStep st).stable_frames = 0 ∧
    (dabCompletionStep st).labelled = st.labelled := by
  unfold dabCompletionStep
  rw [if_pos hne]
  dsimp only
  simp only [if_pos h]
  simp

/-- Completion step when the service count is unchanged: the stability
counter advances, and completion fires exactly when everything is labelled
and the window has reached 10. -/
theorem dabCompletionStep_of_count_eq (st : DABParserState) (hne : st.service_map ≠ [])
    (h : st.service_map.length = st.last_service_count) :
    (dabCompletionStep st).last_service_count = st.last_service_count ∧
    (dabCompletionStep st).stable_frames = st.stable_frames + 1 ∧
    ((dabCompletionStep st).labelled = true ↔
      (st.labelled = true ∨
        ((st.service_map.filter (fun e => st.service_labels.contains e.1)).length
            = st.service_map.length ∧
         st.ensemble_label = true ∧ st.stable_frames + 1 ≥ 10))) := by
  unfold dabCompletionStep
  rw [if_pos hne]
  dsimp only
  simp only [if_neg (show ¬(st.service_map.length ≠ st.last_service_count) from by simp [h])]
  split_ifs with hc
  · simp only [Bool.and_eq_true, beq_iff_eq, decide_eq_true_eq] at hc
    refine ⟨rfl, rfl, ?_⟩
    constructor
    · intro _
      exact Or.inr ⟨hc.1.1, hc.1.2, hc.2⟩
    · intro _
      rfl
  · simp only [Bool.and_eq_true, beq_iff_eq, decide_eq_true_eq, not_and] at hc
    refine ⟨rfl, rfl, ?_⟩
    constructor
    · intro hl
      exact Or.inl hl
    · rintro (hl | ⟨h1, h2, h3⟩)
      · exact hl
      · exact absurd h3 (hc ⟨h1, h2⟩)

/-- Stability invariant of the completion detector: while the parser is not
complete, `stable_frames = s` means the service count has been the same for
the last `s + 1` processed frames. -/
theorem dab_stability_invariant (frames : List (List FigEv)) :
    ∀ m, m ≤ frames.length →
    (dabRun (frames.take m)).labelled = false →
    ((dabRun (frames.take m)).service_map = [] →
        (dabRun (frames.take m)).last_service_count = 0 ∧
        (dabRun (frames.take m)).stable_frames = 0) ∧
    ((dabRun (frames.take m)).service_map ≠ [] →
        (dabRun (frames.take m)).last_service_count
            = (dabRun (frames.take m)).service_map.length ∧
        (dabRun (frames.take m)).stable_frames < m ∧
        ∀ j, j ≤ (dabRun (frames.take m)).stable_frames →
          (dabRun (frames.take (m - j))).service_map.length
            = (dabRun (frames.take m)).service_map.length) := by
  intro m
  induction m with
  | zero =>
      intro _ _
      exact ⟨fun _ => ⟨rfl, rfl⟩, fun hne => absurd rfl hne⟩
  | succ m ih =>
      intro hm hl'
      have hmlt : m < frames.length := by omega
      have hstep := dabRun_take_succ frames m hmlt
      have hl : (dabRun (frames.take m)).labelled = false := by
        by_cases hc : (dabRun (frames.take m)).labelled = true
        · rw [hstep, dabProcessFrame_of_labelled _ _ hc] at hl'
          rw [hl'] at hc
          exact absurd hc (by simp)
        · simpa using hc
      have hframe := dabProcessFrame_eq (dabRun (frames.take m)) (frames.get ⟨m, hmlt⟩) hl
      have hrun1 : dabRun (frames.take (m + 1)) =
          dabCompletionStep (dabBasicReadyStep (dabEnsembleUpd
            (applyEvs (dabRun (frames.take m)) (frames.get ⟨m, hmlt⟩)))) := by
        rw [hstep, hframe]
      have hpre := dabPreCompletion_fields (dabRun (frames.take m)) (frames.get ⟨m, hmlt⟩)
      have hcp := dabCompletionStep_preserved (dabBasicReadyStep (dabEnsembleUpd
        (applyEvs (dabRun (frames.take m)) (frames.get ⟨m, hmlt⟩))))
      have hIH := ih (by omega) hl
      by_cases hA : (applyEvs (dabRun (frames.take m)) (frames.get ⟨m, hmlt⟩)).service_map = []
      · -- the service map is still empty: the completion block is skipped
        have hsmC : (dabBasicReadyStep (dabEnsembleUpd
            (applyEvs (dabRun (frames.take m)) (frames.get ⟨m, hmlt⟩)))).service_map = [] := by
          rw [hpre.1]
          exact hA
        have hid := dabCompletionStep_of_empty _ hsmC
        have hsempty : (dabRun (frames.take m)).service_map = [] := by
          have hlen := applyEvs_sm_length (dabRun (frames.take m)) (frames.get ⟨m, hmlt⟩)
          rw [hA] at hlen
          simpa using List.length_eq_zero.mp (by simpa using hlen)
        have h0 := hIH.1 hsempty
        rw [hrun1, hid]
        constructor
        · intro _
          rw [hpre.2.2.2.1, hpre.2.2.2.2.1]
          exact h0
        · intro hne
          exact absurd hsmC hne
      · -- the completion block runs on a non-empty service map
        have hsmC : (dabBasicReadyStep (dabEnsembleUpd
            (applyEvs (dabRun (frames.take m)) (frames.get ⟨m, hmlt⟩)))).service_map ≠ [] := by
          rw [hpre.1]
          exact hA
        by_cases hcount : (dabBasicReadyStep (dabEnsembleUpd
            (applyEvs (dabRun (frames.take m)) (frames.get ⟨m, hmlt⟩)))).service_map.length
          = (dabBasicReadyStep (dabEnsembleUpd
            (applyEvs (dabRun (frames.take m)) (frames.get ⟨m, hmlt⟩)))).last_service_count
        · -- count unchanged: stability window advances
          have hcase := dabCompletionStep_of_count_eq _ hsmC hcount
          have hsne : (dabRun (frames.take m)).service_map ≠ [] := by
            intro hse
            have h0 := hIH.1 hse
            rw [hpre.1, hpre.2.2.2.1, h0.1] at hcount
            exact hA (List.length_eq_zero.mp hcount)
          have hstrong := hIH.2 hsne
          rw [hrun1]
          constructor
          · intro hemp
            rw [hcp.1] at hemp
            exact absurd hemp hsmC
          · intro _
            have hlenC : (dabCompletionStep (dabBasicReadyStep (dabEnsembleUpd
                (applyEvs (dabRun (frames.take m)) (frames.get ⟨m, hmlt⟩))))).service_map.length
                = (dabRun (frames.take m)).service_map.length := by
              rw [hcp.1, hcount, hpre.2.2.2.1]
              exact hstrong.1.symm ▸ rfl
            refine ⟨?_, ?_, ?_⟩
            · rw [hcase.1, hlenC, hpre.2.2.2.1, hstrong.1]
            · rw [hcase.2.1, hpre.2.2.2.2.1]
              omega
            · intro j hj
              rw [hcase.2.1, hpre.2.2.2.2.1] at hj
              match j with
              | 0 => simp only [Nat.sub_zero, hrun1]
              | i + 1 =>
                  have hi : i ≤ (dabRun (frames.take m)).stable_frames := by omega
                  have hcnt := hstrong.2.2 i hi
                  have hidx : m + 1 - (i + 1) = m - i := by omega
                  rw [hidx, hlenC]
                  exact hcnt
        · -- count changed: stability window restarts
          have hcase := dabCompletionStep_of_count_ne _ hsmC (by simpa using hcount)
          rw [hrun1]
          constructor
          · intro hemp
            rw [hcp.1] at hemp
            exact absurd hemp hsmC
          · intro _
            refine ⟨?_, ?_, ?_⟩
            · rw [hcase.1, hcp.1]
            · rw [hcase.2.1]
              omega
            · intro j hj
              rw [hcase.2.1] at hj
              have hj0 : j = 0 := by omega
              subst hj0
              simp only [Nat.sub_zero, hrun1]

/-- C3 — The FIC parser reports complete on a processed ETI-NI frame only
when every service in the service map has a label, the ensemble label is
present, and the number of services has remained unchanged for at least 10
consecutive processed frames (the count after frame `k` equals the count
after each of frames `k-10 .. k`); in particular, complete never fires on a
frame while the service count is still changing — any change (a service
appearing, or appearing and then disappearing) restarts the 10-frame
stability window. -/
theorem dab_complete_only_after_stable_count
    (frames : List (List FigEv)) (k : Nat) (hk : k < frames.length)
    (h1 : (dabRun (frames.take k)).labelled = false)
    (h2 : (dabRun (frames.take (k + 1))).labelled = true) :
    10 ≤ k ∧
    (∀ j, j ≤ 10 →
      (dabRun (frames.take (k + 1 - j))).service_map.length
        = (dabRun (frames.take (k + 1))).service_map.length) ∧
    (∀ e ∈ (dabRun (frames.take (k + 1))).service_map,
      (dabRun (frames.take (k + 1))).service_labels.contains e.1) ∧
    (dabRun (frames.take (k + 1))).ensemble_label = true := by
  have hstep := dabRun_take_succ frames k hk
  have hframe := dabProcessFrame_eq (dabRun (frames.take k)) (frames.get ⟨k, hk⟩) h1
  have hrun1 : dabRun (frames.take (k + 1)) =
      dabCompletionStep (dabBasicReadyStep (dabEnsembleUpd
        (applyEvs (dabRun (frames.take k)) (frames.get ⟨k, hk⟩)))) := hstep.trans hframe
  have hpre := dabPreCompletion_fields (dabRun (frames.take k)) (frames.get ⟨k, hk⟩)
  have hcp := dabCompletionStep_preserved (dabBasicReadyStep (dabEnsembleUpd
    (applyEvs (dabRun (frames.take k)) (frames.get ⟨k, hk⟩))))
  have hlC : (dabBasicReadyStep (dabEnsembleUpd
      (applyEvs (dabRun (frames.take k)) (frames.get ⟨k, hk⟩)))).labelled = false :=
    hpre.2.2.2.2.2.trans h1
  have hsmC : (dabBasicReadyStep (dabEnsembleUpd
      (applyEvs (dabRun (frames.take k)) (frames.get ⟨k, hk⟩)))).service_map ≠ [] := by
    intro hemp
    rw [hrun1, dabCompletionStep_of_empty _ hemp] at h2
    rw [hlC] at h2
    exact absurd h2 (by simp)
  by_cases hcount : (dabBasicReadyStep (dabEnsembleUpd
      (applyEvs (dabRun (frames.take k)) (frames.get ⟨k, hk⟩)))).service_map.length
    = (dabBasicReadyStep (dabEnsembleUpd
      (applyEvs (dabRun (frames.take k)) (frames.get ⟨k, hk⟩)))).last_service_count
  · -- the service count was unchanged on the firing frame
    have hcase := dabCompletionStep_of_count_eq _ hsmC hcount
    rw [hrun1] at h2
    rcases hcase.2.2.mp h2 with hl | ⟨hfilter, hlbl, hstab⟩
    · rw [hlC] at hl
      exact absurd hl (by simp)
    · have hsne : (dabRun (frames.take k)).service_map ≠ [] := by
        intro hse
        have h0 := (dab_stability_invariant frames k (Nat.le_of_lt hk) h1).1 hse
        rw [hpre.2.2.2.1, h0.1] at hcount
        exact hsmC (List.length_eq_zero.mp hcount)
      have hstrong := (dab_stability_invariant frames k (Nat.le_of_lt hk) h1).2 hsne
      have hstabS : (dabRun (frames.take k)).stable_frames + 1 ≥ 10 := by
        rw [← hpre.2.2.2.2.1]
        exact hstab
      have hlen1 : (dabRun (frames.take (k + 1))).service_map.length
          = (dabBasicReadyStep (dabEnsembleUpd
            (applyEvs (dabRun (frames.take k)) (frames.get ⟨k, hk⟩)))).service_map.length := by
        rw [hrun1, hcp.1]
      have hlenS : (dabBasicReadyStep (dabEnsembleUpd
          (applyEvs (dabRun (frames.take k)) (frames.get ⟨k, hk⟩)))).service_map.length
          = (dabRun (frames.take k)).service_map.length := by
        rw [hcount, hpre.2.2.2.1, hstrong.1]
      refine ⟨?_, ?_, ?_, ?_⟩
      · have := hstrong.2.1
        omega
      · intro j hj
        match j with
        | 0 => simp only [Nat.sub_zero]
        | i + 1 =>
            have hi : i ≤ (dabRun (frames.take k)).stable_frames := by omega
            have hidx : k + 1 - (i + 1) = k - i := by omega
            rw [hidx, hlen1, hlenS]
            exact hstrong.2.2 i hi
      · intro e he
        rw [hrun1, hcp.1] at he
        rw [hrun1, hcp.2.1]
        exact List.filter_length_eq_length.mp hfilter e he
      · rw [hrun1, hcp.2.2.1]
        exact hlbl
  · -- the service count changed on this frame: completion cannot fire
    have hcase := dabCompletionStep_of_count_ne _ hsmC (by simpa using hcount)
    rw [hrun1] at h2
    rw [hcase.2.2, hlC] at h2
    exact absurd h2 (by simp)

theorem dab_complete_only_after_stable_count_witness :
    (dabRun (([[FigEv.addService 1 0, FigEv.svcLabel 1, FigEv.ensLabel 2]]
        ++ List.replicate 10 []).take (10 + 1))).ensemble_label = true :=
  (dab_complete_only_after_stable_count
    ([[FigEv.addService 1 0, FigEv.svcLabel 1, FigEv.ensLabel 2]] ++ List.replicate 10 [])
    10 (by decide) (by decide) (by decide)).2.2.2

/-! ### Ensemble manager, ETI-NA path — `src/ensemble_manager.cpp`,
`EnsembleManager::processEtiFrame` -/

/-- The callbacks fired by `processEtiFrame`, in invocation order. -/
inductive MgrEvent where
  | basicReadyEvt
  | etiFrameEvt
  | completeEvt
  deriving Repr, DecidableEq

/-- The manager's per-stream-key state for one ETI-NA PID: the PID-keyed
`DABParser` plus `basic_ready_flags_[key]` and `complete_flags_[key]`
(created `false` with the parser, ensemble_manager.cpp lines 186-191). -/
structure EtinaMgrState where
  parser : DABParserState := {}
  basicFlag : Bool := false
  completeFlag : Bool := false
  deriving Repr, DecidableEq

/-- `EnsembleManager::processEtiFrame` (ensemble_manager.cpp lines 181-219)
for one frame on one PID, returning the new state and the callbacks fired,
in order. -/
def mgrProcessEtiFrame (m : EtinaMgrState) (evs : List FigEv) :
    EtinaMgrState × List MgrEvent :=
  -- Feed to FIC parser
  let p := dabProcessFrame m.parser evs
  -- Check for basic ready FIRST - muxer must be initialized before audio
  let r1 : Bool × List MgrEvent :=
    if p.basic_ready ∧ ¬ m.basicFlag then (true, [MgrEvent.basicReadyEvt])
    else (m.basicFlag, [])
  -- THEN fire ETI callback
  let e2 : List MgrEvent := [MgrEvent.etiFrameEvt]
  -- Check for complete
  let r3 : Bool × List MgrEvent :=
    if p.labelled ∧ ¬ m.completeFlag then (true, [MgrEvent.completeEvt])
    else (m.completeFlag, [])
  ({ parser := p, basicFlag := r1.1, completeFlag := r3.1 }, r1.2 ++ e2 ++ r3.2)

/-- A run of the manager over the processed frames of one ETI-NA PID. -/
def mgrEtinaRun (frames : List (List FigEv)) : EtinaMgrState :=
  frames.foldl (fun m evs => (mgrProcessEtiFrame m evs).1) {}

/-- `basic_ready_` is never cleared by a processed frame. -/
theorem dabProcessFrame_br_mono (st : DABParserState) (evs : List FigEv)
    (h : st.basic_ready = true) : (dabProcessFrame st evs).basic_ready = true := by
  unfold dabProcessFrame
  split_ifs with hl
  · exact h
  · rw [(dabCompletionStep_preserved _).2.2.2.1]
    have hE : (dabEnsembleUpd (applyEvs st evs)).basic_ready = true := by
      rw [(dabEnsembleUpd_preserved _).2.1, (applyEvs_preserved st evs).2.1]
      exact h
    unfold dabBasicReadyStep
    rw [if_neg (by simp [hE])]
    exact hE

theorem mgrProcessEtiFrame_dabstate (m : EtinaMgrState) (evs : List FigEv) :
    (mgrProcessEtiFrame m evs).1.parser = dabProcessFrame m.parser evs := rfl

/-- The manager's per-key basic-ready flag tracks the parser's predicate. -/
theorem mgrEtina_flag_sync (frames : List (List FigEv)) :
    ∀ m : EtinaMgrState, m.basicFlag = m.parser.basic_ready →
    (frames.foldl (fun m evs => (mgrProcessEtiFrame m evs).1) m).basicFlag
      = (frames.foldl (fun m evs => (mgrProcessEtiFrame m evs).1) m).parser.basic_ready := by
  induction frames with
  | nil => exact fun m h => h
  | cons evs rest ih =>
      intro m h
      simp only [List.foldl_cons]
      apply ih
      show (mgrProcessEtiFrame m evs).1.basicFlag
        = (mgrProcessEtiFrame m evs).1.parser.basic_ready
      unfold mgrProcessEtiFrame
      dsimp only
      split_ifs with hb
      · exact hb.1.symm
      · dsimp only
        by_cases hp : (dabProcessFrame m.parser evs).basic_ready = true
        · rw [hp]
          by_contra hc
          exact hb ⟨hp, by simpa using hc⟩
        · have hp' : (dabProcessFrame m.parser evs).basic_ready = false := by
            simpa using hp
          rw [hp']
          by_cases hmb : m.parser.basic_ready = true
          · rw [dabProcessFrame_br_mono m.parser evs hmb] at hp'
            exact absurd hp' (by simp)
          · rw [h]
            simpa using hmb

theorem mgrEtinaRun_dabstate_aux (frames : List (List FigEv)) :
    ∀ m : EtinaMgrState,
      (frames.foldl (fun m evs => (mgrProcessEtiFrame m evs).1) m).parser
        = frames.foldl dabProcessFrame m.parser := by
  induction frames with
  | nil => exact fun _ => rfl
  | cons evs rest ih =>
      intro m
      simp only [List.foldl_cons]
      exact ih _

theorem mgrEtinaRun_dabstate (frames : List (List FigEv)) :
    (mgrEtinaRun frames).parser = dabRun frames :=
  mgrEtinaRun_dabstate_aux frames {}

/-- C4 — On the frame for which the FIC parser's basic-ready predicate first
becomes true, `processEtiFrame` fires the `basic_ready` callback before the
`eti_frame` callback for that same frame. -/
theorem etina_basic_ready_before_eti_frame
    (frames : List (List FigEv)) (k : Nat) (hk : k < frames.length)
    (h1 : (dabRun (frames.take k)).basic_ready = false)
    (h2 : (dabProcessFrame (dabRun (frames.take k)) (frames.get ⟨k, hk⟩)).basic_ready = true) :
    ((mgrProcessEtiFrame (mgrEtinaRun (frames.take k)) (frames.get ⟨k, hk⟩)).2).take 2
      = [MgrEvent.basicReadyEvt, MgrEvent.etiFrameEvt] := by
  have hparser := mgrEtinaRun_dabstate (frames.take k)
  have hflag : (mgrEtinaRun (frames.take k)).basicFlag = false := by
    have hsync : (mgrEtinaRun (frames.take k)).basicFlag
        = (mgrEtinaRun (frames.take k)).parser.basic_ready :=
      mgrEtina_flag_sync (frames.take k) {} rfl
    rw [hsync, hparser]
    exact h1
  unfold mgrProcessEtiFrame
  dsimp only
  rw [hparser, if_pos ⟨h2, by simp [hflag]⟩]
  rfl

theorem etina_basic_ready_before_eti_frame_witness :
    ((mgrProcessEtiFrame
        (mgrEtinaRun (([[FigEv.addSubch ⟨5, 0, 0, 0, 0, 0, 0⟩, FigEv.addService 1 5]]
          ++ List.replicate 3 []).take 3))
        (([[FigEv.addSubch ⟨5, 0, 0, 0, 0, 0, 0⟩, FigEv.addService 1 5]]
          ++ List.replicate 3 []).get ⟨3, by decide⟩)).2).take 2
      = [MgrEvent.basicReadyEvt, MgrEvent.etiFrameEvt] :=
  etina_basic_ready_before_eti_frame
    ([[FigEv.addSubch ⟨5, 0, 0, 0, 0, 0, 0⟩, FigEv.addService 1 5]] ++ List.replicate 3 [])
    3 (by decide) (by decide) (by decide)

/-- C5 counterexample — a stream whose single service references sub-channel
5 which is never described by FIG 0/1: completion (which only requires
labels and a stable count) still fires, and the reported ensemble contains
a service whose sub-channel is absent from the sub-channel set
(`build_ensemble` pushes the service with its sub-channel fields unset). -/
theorem complete_ensemble_with_missing_subchannel :
    (dabRun ([[FigEv.addService 1 5, FigEv.svcLabel 1, FigEv.ensLabel 2]]
        ++ List.replicate 10 [])).labelled = true ∧
    (dabRun ([[FigEv.addService 1 5, FigEv.svcLabel 1, FigEv.ensLabel 2]]
        ++ List.replicate 10 [])).subchannels = [] ∧
    ∃ svc ∈ (dabRun ([[FigEv.addService 1 5, FigEv.svcLabel 1, FigEv.ensLabel 2]]
        ++ List.replicate 10 [])).ensemble.services, svc.subch = none := by
  refine ⟨by decide, by decide, ?_⟩
  decide

/-- C5 (amended) — the reported service list of a built ensemble contains
exactly one service per `service_map` entry; a service's sub-channel fields
are those of the sub-channel map entry for its primary sub-channel when
that entry exists (so its `subchannel_id` then refers to a sub-channel
present in the sub-channel set), and the service is included with its
sub-channel fields unset when the entry is absent.  Completion does not
guarantee presence of the sub-channels. -/
theorem build_ensemble_services_spec (st : DABParserState) :
    (∀ e ∈ st.service_map, ∃ svc ∈ (build_ensemble st).services,
        svc.sid = e.1 ∧ svc.subch = alookup st.subchannels e.2 ∧
        svc.hasLabel = st.service_labels.contains e.1) ∧
    (∀ svc ∈ (build_ensemble st).services, ∃ e ∈ st.service_map,
        svc.sid = e.1 ∧ svc.subch = alookup st.subchannels e.2) := by
  constructor
  · intro e he
    refine ⟨{ sid := e.1, hasLabel := st.service_labels.contains e.1,
              subch := alookup st.subchannels e.2 }, ?_, rfl, rfl, rfl⟩
    unfold build_ensemble
    dsimp only
    rw [mem_svcSortBySid]
    exact List.mem_map.mpr ⟨e, he, rfl⟩
  · intro svc hsvc
    unfold build_ensemble at hsvc
    dsimp only at hsvc
    rw [mem_svcSortBySid] at hsvc
    obtain ⟨e, he, hmap⟩ := List.mem_map.mp hsvc
    exact ⟨e, he, by rw [← hmap], by rw [← hmap]⟩

theorem build_ensemble_services_spec_witness :
    ∃ svc ∈ (build_ensemble
        { service_map := [(7, 3)],
          subchannels := [(3, { subchid := 3 })] }).services,
      svc.sid = 7 ∧ svc.subch = alookup [(3, ({ subchid := 3 } : SubCh))] 3 ∧
      svc.hasLabel = ([] : List Nat).contains 7 :=
  (build_ensemble_services_spec
    { service_map := [(7, 3)], subchannels := [(3, { subchid := 3 })] }).1
    (7, 3) (by decide)

/-! ### Ensemble manager, UDP path — `src/ensemble_manager.cpp`,
`EnsembleManager::processUdp` (lines 44-119) -/

/-- `SubchannelChange {sid, old, new}`; 0xFF is the add/remove sentinel. -/
structure SubchChange where
  sid : Nat
  oldSubch : Nat
  newSubch : Nat
  deriving Repr, DecidableEq

/-- The byte stored in the per-stream sub-channel tracking map:
`static_cast<uint8_t>(svc.subchannel_id)`.  When `build_ensemble` did not
find the service's sub-channel the field is uninitialized in the source
(indeterminate); modelled by a fixed unspecified byte. -/
def svcSubchByte (svc : DABSvc) : Nat :=
  match svc.subch with
  | some sc => sc.subchid % 256
  | none => 0

/-- `subch_map[svc.sid] = uint8(svc.subchannel_id)` over an ensemble's
services (ensemble_manager.cpp lines 71-74 and 89-92). -/
def ensembleSubchMap (ens : DABEns) : List (Nat × Nat) :=
  ens.services.foldl (fun m svc => ainsert m svc.sid (svcSubchByte svc)) []

/-- The change detection of `processUdp` (ensemble_manager.cpp lines
94-111): new services, changed sub-channels, then removed services. -/
def computeChanges (prev cur : List (Nat × Nat)) : List SubchChange :=
  (cur.filterMap (fun e =>
    match alookup prev e.1 with
    | none => some { sid := e.1, oldSubch := 0xFF, newSubch := e.2 }
    | some ov => if ov ≠ e.2 then some { sid := e.1, oldSubch := ov, newSubch := e.2 }
                 else none))
  ++ (prev.filterMap (fun e =>
    if (alookup cur e.1).isSome then none
    else some { sid := e.1, oldSubch := e.2, newSubch := 0xFF }))

/-- The manager's per-stream-key state for one UDP stream key. -/
structure UdpMgrState where
  parser : DABParserState := {}
  basicFlag : Bool := false
  completeFlag : Bool := false
  lastMap : List (Nat × Nat) := []
  deriving Repr, DecidableEq

/-- The callbacks fired by one `processUdp` call. -/
structure UdpMgrOut where
  basicFired : Bool
  completeFired : Bool
  changes : List SubchChange
  deriving Repr, DecidableEq

/-- `EnsembleManager::processUdp` (ensemble_manager.cpp lines 44-119) for
one EDI packet on one stream key whose frame, if any, performs `evs`
(`process_edi_packet` returns `fic_parser_.is_complete()`). -/
def mgrProcessUdp (m : UdpMgrState) (evs : List FigEv) : UdpMgrState × UdpMgrOut :=
  let p := dabProcessFrame m.parser evs
  let complete := p.labelled
  -- Check for basic ready (lines 53-60)
  let r1 : Bool × Bool :=
    if p.basic_ready ∧ ¬ m.basicFlag then (true, true) else (m.basicFlag, false)
  -- Check for full completion (lines 63-80): store the ensemble and
  -- initialize the subchannel tracking map
  let r2 : Bool × List (Nat × Nat) × Bool :=
    if complete ∧ ¬ m.completeFlag then (true, ensembleSubchMap p.ensemble, true)
    else (m.completeFlag, m.lastMap, false)
  -- After completion, continuously monitor for subchannel changes
  -- (lines 83-118)
  let r3 : List SubchChange × List (Nat × Nat) :=
    if r2.1 then
      let cur := ensembleSubchMap p.ensemble
      let chs := computeChanges r2.2.1 cur
      (chs, if chs ≠ [] then cur else r2.2.1)
    else ([], r2.2.1)
  ({ parser := p, basicFlag := r1.1, completeFlag := r2.1, lastMap := r3.2 },
   { basicFired := r1.2, completeFired := r2.2.2, changes := r3.1 })

def runUdpMgr (frames : List (List FigEv)) : UdpMgrState :=
  frames.foldl (fun m evs => (mgrProcessUdp m evs).1) {}

/-- A stream that completes with service 1 on sub-channel 5, followed by
FIC input that re-assigns service 1 to sub-channel 7. -/
def c9CompleteFrames : List (List FigEv) :=
  [[FigEv.addSubch { subchid := 5 }, FigEv.addSubch { subchid := 7 },
    FigEv.addService 1 5, FigEv.svcLabel 1, FigEv.ensLabel 2]] ++ List.replicate 10 []

/-- C9 — After `complete` has fired for a stream, feeding input that
re-assigns a service's sub-channel emits NO `SubchannelChange` event:
`DABParser::process_eti_frame` returns immediately once complete
(dab_parser.cpp line 160), so the parser's ensemble snapshot is frozen and
the manager's change-diff (ensemble_manager.cpp lines 83-118) always
compares two identical maps.  The claim says a `{sid, old, new}` event is
emitted for the change. -/
theorem no_subchannel_change_after_complete :
    (runUdpMgr c9CompleteFrames).completeFlag = true ∧
    alookup (runUdpMgr c9CompleteFrames).lastMap 1 = some 5 ∧
    alookup (applyEvs (runUdpMgr c9CompleteFrames).parser
        [FigEv.addService 1 7]).service_map 1 = some 7 ∧
    (mgrProcessUdp (runUdpMgr c9CompleteFrames) [FigEv.addService 1 7]).2.changes = [] ∧
    (mgrProcessUdp (runUdpMgr c9CompleteFrames) [FigEv.addService 1 7]).1.parser
      = (runUdpMgr c9CompleteFrames).parser := by
  refine ⟨by decide, by decide, by decide, by decide, by decide⟩

/-! ### EDI PF reassembly — `src/dab_parser.cpp`, `PF_Reassembler` -/

/-- `PF_Header` (dab_parser.h); only the fields `add_fragment` reads.  The
source's `valid` flag corresponds to `parse_pf_header` returning `some`;
the optional RS/address fields are parsed but never read. -/
structure PF_Hdr where
  pseq : Nat
  findex : Nat
  fcount : Nat
  fec : Nat
  addr : Nat
  plen : Nat
  deriving Repr, DecidableEq

/-- `PF_Reassembler::parse_pf_header` (dab_parser.cpp lines 817-842). -/
def parse_pf_header (pkt : Bytes) : Option PF_Hdr :=
  if pkt.length < 14 ∨ getB pkt 0 ≠ 0x50 ∨ getB pkt 1 ≠ 0x46 then none
  else
    let pseq := read16 pkt 2
    let findex := read24 pkt 4
    let fcount := read24 pkt 7
    let fec_addr_plen := read16 pkt 10
    let fec := (fec_addr_plen >>> 15) &&& 1
    let addr := (fec_addr_plen >>> 14) &&& 1
    let plen := fec_addr_plen &&& 0x3FFF
    -- Sanity check: plen should fit within the packet
    if plen > pkt.length - 14 then none
    else some { pseq := pseq, findex := findex, fcount := fcount,
                fec := fec, addr := addr, plen := plen }

/-- `PF_Collector` (dab_parser.h), with default-constructed values as
created by `collectors_[pseq]`. -/
structure PF_Coll where
  pseq : Nat := 0
  fcount : Nat := 0
  fragments_collected : Nat := 0
  processed : Bool := false
  fragments : List (Nat × Bytes) := []
  deriving Repr, DecidableEq

structure PF_Reassembler where
  collectors : List (Nat × PF_Coll) := []
  deriving Repr, DecidableEq

/-- The iterator walk of `cleanup_old_collectors` (dab_parser.cpp lines
805-813): `while (size > 8 && it != end) { erase processed, else ++it }`. -/
def cleanupWalk : List (Nat × PF_Coll) → List (Nat × PF_Coll) → List (Nat × PF_Coll)
  | visited, [] => visited
  | visited, e :: rest =>
      if visited.length + (e :: rest).length > 8 then
        if e.2.processed then cleanupWalk visited rest
        else cleanupWalk (visited ++ [e]) rest
      else visited ++ e :: rest

/-- `PF_Reassembler::cleanup_old_collectors` (dab_parser.cpp lines
803-815): removes completed collectors, and only when more than 16 exist. -/
def cleanup_old_collectors (st : PF_Reassembler) : PF_Reassembler :=
  if st.collectors.length > 16 then { collectors := cleanupWalk [] st.collectors } else st

/-- `PF_Reassembler::add_fragment` (dab_parser.cpp lines 844-900).  The
returned `Option Bytes` is the reassembled AF packet (`af_buffer_` plus a
positive `af_len`); `none` covers every `return nullptr`. -/
def add_fragment (st : PF_Reassembler) (hdr : PF_Hdr) (pkt : Bytes) :
    PF_Reassembler × Option Bytes :=
  -- Calculate header size
  let hdr_size := 12 + (if hdr.fec ≠ 0 then 2 else 0) + (if hdr.addr ≠ 0 then 4 else 0) + 2
  if pkt.length < hdr_size + hdr.plen then (st, none)
  else
    let payload := (pkt.drop hdr_size).take hdr.plen
    -- Get or create collector for this pseq (map auto-creates if not exists)
    let c0 := (alookup st.collectors hdr.pseq).getD {}
    -- Initialize if new OR if this pseq was previously processed
    let c : PF_Coll :=
      if c0.fcount = 0 ∨ c0.processed then
        { pseq := hdr.pseq, fcount := hdr.fcount, fragments_collected := 0,
          processed := false, fragments := [] }
      else c0
    if hdr.findex ≥ c.fcount then ({ collectors := ainsert st.collectors hdr.pseq c }, none)
    else if (alookup c.fragments hdr.findex).isSome then
      -- Already have this fragment
      ({ collectors := ainsert st.collectors hdr.pseq c }, none)
    else
      -- Store fragment
      let c : PF_Coll := { c with fragments := ainsert c.fragments hdr.findex payload,
                                  fragments_collected := c.fragments_collected + 1 }
      if c.fragments_collected < c.fcount then
        -- Not complete yet
        ({ collectors := ainsert st.collectors hdr.pseq c }, none)
      else
        -- All fragments received - concatenate in order
        let c : PF_Coll := { c with processed := true }
        if (List.range c.fcount).all (fun i => (alookup c.fragments i).isSome) then
          let af := (List.range c.fcount).foldl
            (fun acc i => acc ++ (alookup c.fragments i).getD []) []
          (cleanup_old_collectors { collectors := ainsert st.collectors hdr.pseq c }, some af)
        else
          -- Missing fragment: af_len stays 0, no cleanup (early return)
          ({ collectors := ainsert st.collectors hdr.pseq c }, none)

/-- `DABStreamParser::handle_pf_packet` (dab_parser.cpp lines 1296-1328),
cut at the AF hand-off. -/
def handle_pf_packet (st : PF_Reassembler) (pkt : Bytes) : PF_Reassembler × Option Bytes :=
  match parse_pf_header pkt with
  | none => (st, none)
  | some hdr => add_fragment st hdr pkt

/-- Feed a sequence of PF packets, collecting every reassembled AF. -/
def runPf (st : PF_Reassembler) : List Bytes → PF_Reassembler × List Bytes
  | [] => (st, [])
  | pkt :: rest =>
      let r := handle_pf_packet st pkt
      let rf := runPf r.1 rest
      (rf.1, r.2.toList ++ rf.2)

/-- A well-formed PF packet with the given header fields, no FEC/ADDR
extension, zeroed HCRC, and the given payload. -/
def mkPf (pseq findex fcount : Nat) (payload : Bytes) : Bytes :=
  [0x50, 0x46, pseq / 256, pseq % 256,
   findex / 65536, findex / 256 % 256, findex % 256,
   fcount / 65536, fcount / 256 % 256, fcount % 256,
   payload.length / 256, payload.length % 256, 0, 0] ++ payload

theorem mul256_or_eq_add (k c : Nat) (hc : c < 256) : (k * 256) ||| c = k * 256 + c := by
  have h := Nat.mul_add_lt_is_or (b := c) (i := 8) (by simpa using hc) k
  rw [show k * 256 = 2 ^ 8 * k by ring]
  exact h.symm

theorem be16_roundtrip (x : Nat) : ((x / 256) <<< 8) ||| (x % 256) = x := by
  rw [shiftLeft_or_eq_add _ _ 8 (by omega)]
  omega

theorem be24_roundtrip (x : Nat) :
    ((x / 65536) <<< 16) ||| ((x / 256 % 256) <<< 8) ||| (x % 256) = x := by
  have hB : (x / 256 % 256) <<< 8 < 2 ^ 16 := by
    rw [Nat.shiftLeft_eq]
    have h2 : x / 256 % 256 < 256 := Nat.mod_lt _ (by norm_num)
    calc (x / 256 % 256) * 2 ^ 8 < 256 * 2 ^ 8 := by
          exact mul_lt_mul_of_pos_right h2 (by norm_num)
      _ = 2 ^ 16 := by norm_num
  rw [shiftLeft_or_eq_add (x / 65536) _ 16 hB]
  rw [Nat.shiftLeft_eq]
  rw [show x / 65536 * 2 ^ 16 + x / 256 % 256 * 2 ^ 8
      = (x / 65536 * 256 + x / 256 % 256) * 256 by ring]
  rw [mul256_or_eq_add _ _ (by omega)]
  omega

theorem getB_mkPf_lt (l : Bytes) (p : Bytes) (i : Nat) (h : i < l.length) :
    getB (l ++ p) i = getB l i := by
  simp only [getB, List.getD]
  rw [List.get?_append h]

/-- Parsing a well-formed PF packet recovers its header fields. -/
theorem parse_mkPf (pseq findex fcount : Nat) (payload : Bytes)
    (hpl : payload.length < 2 ^ 14) :
    parse_pf_header (mkPf pseq findex fcount payload) =
      some { pseq := pseq, findex := findex, fcount := fcount,
             fec := 0, addr := 0, plen := payload.length } := by
  have hlen : (mkPf pseq findex fcount payload).length = 14 + payload.length := by
    simp [mkPf]
    omega
  have hb : ∀ i < 14, getB (mkPf pseq findex fcount payload) i =
      getB [0x50, 0x46, pseq / 256, pseq % 256,
            findex / 65536, findex / 256 % 256, findex % 256,
            fcount / 65536, fcount / 256 % 256, fcount % 256,
            payload.length / 256, payload.length % 256, 0, 0] i := by
    intro i hi
    exact getB_mkPf_lt _ _ i (by simp; omega)
  rw [parse_pf_header]
  rw [if_neg (by
    push_neg
    refine ⟨by omega, ?_, ?_⟩
    · rw [hb 0 (by omega)]
      rfl
    · rw [hb 1 (by omega)]
      rfl)]
  have h16 : read16 (mkPf pseq findex fcount payload) 2 = pseq := by
    rw [read16, hb 2 (by omega), hb 3 (by omega)]
    show ((pseq / 256) <<< 8) ||| (pseq % 256) = pseq
    exact be16_roundtrip pseq
  have h24a : read24 (mkPf pseq findex fcount payload) 4 = findex := by
    rw [read24, hb 4 (by omega), hb 5 (by omega), hb 6 (by omega)]
    exact be24_roundtrip findex
  have h24b : read24 (mkPf pseq findex fcount payload) 7 = fcount := by
    rw [read24, hb 7 (by omega), hb 8 (by omega), hb 9 (by omega)]
    exact be24_roundtrip fcount
  have hplen : read16 (mkPf pseq findex fcount payload) 10 = payload.length := by
    rw [read16, hb 10 (by omega), hb 11 (by omega)]
    exact be16_roundtrip payload.length
  have hfec : (payload.length >>> 15) &&& 1 = 0 := by
    rw [Nat.shiftRight_eq_div_pow]
    have : payload.length / 2 ^ 15 = 0 := Nat.div_eq_of_lt (by omega)
    rw [this]
    decide
  have haddr : (payload.length >>> 14) &&& 1 = 0 := by
    rw [Nat.shiftRight_eq_div_pow]
    have : payload.length / 2 ^ 14 = 0 := Nat.div_eq_of_lt (by omega)
    rw [this]
    decide
  have hmask : payload.length &&& 0x3FFF = payload.length := by
    rw [show (0x3FFF : Nat) = 2 ^ 14 - 1 from rfl, and_two_pow_sub_one]
    omega
  dsimp only
  rw [h16, h24a, h24b, hplen, hmask, hfec, haddr]
  rw [if_neg (by rw [hlen]; omega)]

theorem alookup_none_iff {α : Type} (l : List (Nat × α)) (k : Nat) :
    alookup l k = none ↔ k ∉ l.map Prod.fst := by
  induction l with
  | nil => simp [alookup]
  | cons e rest ih =>
      obtain ⟨k', v'⟩ := e
      by_cases h : k = k' <;> simp [alookup, h, ih]

theorem ainsert_of_none {α : Type} (l : List (Nat × α)) (k : Nat) (v : α)
    (h : alookup l k = none) : ainsert l k v = l ++ [(k, v)] := by
  induction l with
  | nil => simp [ainsert]
  | cons e rest ih =>
      obtain ⟨k', v'⟩ := e
      by_cases h1 : k = k'
      · simp [alookup, h1] at h
      · simp only [alookup, if_neg h1] at h
        simp [ainsert, h1, ih h]

theorem alookup_append_none {α : Type} (l1 l2 : List (Nat × α)) (k : Nat)
    (h : alookup l1 k = none) : alookup (l1 ++ l2) k = alookup l2 k := by
  induction l1 with
  | nil => simp
  | cons e rest ih =>
      obtain ⟨k', v'⟩ := e
      by_cases h1 : k = k'
      · simp [alookup, h1] at h
      · simp only [alookup, if_neg h1] at h
        simp [alookup, h1, ih h]

theorem alookup_isSome_ainsert {α : Type} (l : List (Nat × α)) (k : Nat) (v : α) (i : Nat) :
    (alookup (ainsert l k v) i).isSome ↔ i = k ∨ (alookup l i).isSome := by
  by_cases h : i = k
  · subst h
    simp [alookup_ainsert]
  · rw [alookup_ainsert_ne _ _ _ _ h]
    simp [h]

theorem runPf_cons (st : PF_Reassembler) (pkt : Bytes) (rest : List Bytes) :
    runPf st (pkt :: rest) =
      ((runPf (handle_pf_packet st pkt).1 rest).1,
       (handle_pf_packet st pkt).2.toList ++ (runPf (handle_pf_packet st pkt).1 rest).2) := rfl

theorem runPf_append (st : PF_Reassembler) (l1 l2 : List Bytes) :
    runPf st (l1 ++ l2) =
      ((runPf (runPf st l1).1 l2).1,
       (runPf st l1).2 ++ (runPf (runPf st l1).1 l2).2) := by
  induction l1 generalizing st with
  | nil => simp [runPf]
  | cons p r ih =>
      simp only [List.cons_append, runPf_cons, ih]
      simp [List.append_assoc]

/-- Feeding a PF fragment with a fresh `Pseq` and `findex 0` of `fcount 2`
creates one new, incomplete collector slot and emits nothing. -/
theorem handle_incomplete_fresh (st : PF_Reassembler) (p : Nat)
    (hnone : alookup st.collectors p = none) :
    handle_pf_packet st (mkPf p 0 2 [0]) =
      ({ collectors := st.collectors ++
          [(p, { pseq := p, fcount := 2, fragments_collected := 1, processed := false,
                 fragments := [(0, [0])] })] }, none) := by
  have hpay : ((mkPf p 0 2 [0]).drop 14).take 1 = [0] := rfl
  rw [handle_pf_packet, parse_mkPf p 0 2 [0] (by norm_num)]
  dsimp only
  unfold add_fragment
  rw [hnone]
  norm_num [mkPf, alookup, hpay]
  rw [ainsert_of_none _ _ _ hnone]
  rfl

/-- Invariant of feeding `m` single incomplete fragments with distinct
`Pseq`: `m` unprocessed slots, no output, and every `Pseq ≥ m` unused. -/
theorem pf_grow_invariant (m : Nat) :
    (runPf {} ((List.range m).map (fun i => mkPf i 0 2 [0]))).1.collectors.length = m ∧
    (∀ e ∈ (runPf {} ((List.range m).map (fun i => mkPf i 0 2 [0]))).1.collectors,
        e.2.processed = false) ∧
    (runPf {} ((List.range m).map (fun i => mkPf i 0 2 [0]))).2 = [] ∧
    (∀ k, m ≤ k →
      alookup (runPf {} ((List.range m).map (fun i => mkPf i 0 2 [0]))).1.collectors k
        = none) := by
  induction m with
  | zero => exact ⟨rfl, by simp [runPf], rfl, fun k _ => rfl⟩
  | succ m ih =>
      obtain ⟨ihlen, ihact, ihout, ihnone⟩ := ih
      have hnone := ihnone m (Nat.le_refl m)
      have hstep := handle_incomplete_fresh
        (runPf {} ((List.range m).map (fun i => mkPf i 0 2 [0]))).1 m hnone
      rw [List.range_succ, List.map_append]
      rw [runPf_append]
      simp only [List.map_cons, List.map_nil, runPf_cons, runPf, hstep]
      refine ⟨?_, ?_, ?_, ?_⟩
      · simp [ihlen]
      · intro e he
        rcases List.mem_append.mp he with h | h
        · exact ihact e h
        · simp at h
          rw [h]
      · simp [ihout]
      · intro k hk
        rw [alookup_append_none _ _ _ (ihnone k (by omega))]
        simp [alookup]
        omega

/-- C8 (amended) — incomplete PF collector slots are never evicted: feeding
`n` fragments with `n` distinct `Pseq` values, each announcing 2 fragments
but delivering only one, leaves exactly `n` collector slots, all active
(unprocessed), with no AF emitted — the number of active slots grows
without bound and in particular is not bounded by 64.  (Only processed
slots are cleaned up, and only when more than 16 slots exist, on an AF
completion.) -/
theorem pf_incomplete_slots_grow (n : Nat) (hn : n ≤ 65536) :
    (runPf {} ((List.range n).map (fun i => mkPf i 0 2 [0]))).1.collectors.length = n ∧
    (∀ e ∈ (runPf {} ((List.range n).map (fun i => mkPf i 0 2 [0]))).1.collectors,
        e.2.processed = false) ∧
    (runPf {} ((List.range n).map (fun i => mkPf i 0 2 [0]))).2 = [] :=
  ⟨(pf_grow_invariant n).1, (pf_grow_invariant n).2.1, (pf_grow_invariant n).2.2.1⟩

theorem pf_incomplete_slots_grow_witness :
    (runPf {} ((List.range 65).map (fun i => mkPf i 0 2 [0]))).1.collectors.length = 65 :=
  (pf_incomplete_slots_grow 65 (by norm_num)).1

/-- C8 counterexample — after 65 incomplete fragments with distinct `Pseq`,
the reassembler holds 65 active collector slots, exceeding the claimed
bound of 64 (`cleanup_old_collectors` removes only `processed` collectors,
and is only invoked after a completed AF assembly). -/
theorem pf_active_slots_exceed_64 :
    64 < (runPf {} ((List.range 65).map (fun i => mkPf i 0 2 [0]))).1.collectors.length := by
  have h := (pf_grow_invariant 65).1
  omega

theorem alookup_mem {α : Type} (l : List (Nat × α)) (k : Nat) (v : α)
    (h : alookup l k = some v) : (k, v) ∈ l := by
  induction l with
  | nil => simp [alookup] at h
  | cons e rest ih =>
      obtain ⟨k', v'⟩ := e
      by_cases h1 : k = k'
      · simp only [alookup, if_pos h1, Option.some.injEq] at h
        simp [h1, h]
      · simp only [alookup, if_neg h1] at h
        simp [ih h]

theorem alookup_isSome_iff_mem_keys {α : Type} (l : List (Nat × α)) (k : Nat) :
    (alookup l k).isSome ↔ k ∈ l.map Prod.fst := by
  rw [Option.isSome_iff_ne_none, ne_eq, alookup_none_iff, not_not]

theorem foldl_append_eq_join {α β : Type} (l : List α) (g : α → List β) :
    ∀ a : List β, l.foldl (fun acc x => acc ++ g x) a = a ++ (l.map g).join := by
  induction l with
  | nil => intro a; simp
  | cons x rest ih =>
      intro a
      simp only [List.foldl_cons, List.map_cons, List.join, ih]
      simp [List.append_assoc]

theorem nodup_bounded_full (keys : List Nat) (f : Nat) (hnd : keys.Nodup)
    (hlt : ∀ k ∈ keys, k < f) (hlen : f ≤ keys.length) : ∀ j < f, j ∈ keys := by
  intro j hj
  have hsub : keys.toFinset ⊆ Finset.range f := by
    intro x hx
    exact Finset.mem_range.mpr (hlt x (List.mem_toFinset.mp hx))
  have hcard : (Finset.range f).card ≤ keys.toFinset.card := by
    rw [Finset.card_range, List.toFinset_card_of_nodup hnd]
    exact hlen
  have heq := Finset.eq_of_subset_of_card_le hsub hcard
  have : j ∈ Finset.range f := Finset.mem_range.mpr hj
  rw [← heq] at this
  exact List.mem_toFinset.mp this

theorem length_ge_of_full (keys : List Nat) (f : Nat)
    (hfull : ∀ j < f, j ∈ keys) : f ≤ keys.length := by
  have hsub : Finset.range f ⊆ keys.toFinset := by
    intro x hx
    exact List.mem_toFinset.mpr (hfull x (Finset.mem_range.mp hx))
  calc f = (Finset.range f).card := (Finset.card_range f).symm
    _ ≤ keys.toFinset.card := Finset.card_le_card hsub
    _ ≤ keys.length := keys.toFinset_card_le

theorem mkPf_payload (p i f : Nat) (pay : Bytes) :
    ((mkPf p i f pay).drop 14).take pay.length = pay := by
  rw [mkPf]
  rw [show (14 : Nat) = ([0x50, 0x46, p / 256, p % 256, i / 65536, i / 256 % 256, i % 256,
      f / 65536, f / 256 % 256, f % 256,
      pay.length / 256, pay.length % 256, 0, 0] : Bytes).length from rfl]
  rw [List.drop_left, List.take_length]

theorem cleanup_singleton (e : Nat × PF_Coll) :
    cleanup_old_collectors { collectors := [e] } = { collectors := [e] } := by
  rw [cleanup_old_collectors]
  norm_num

/-- The effective collector `add_fragment` works on: the stored one, unless
it is fresh (default `fcount = 0`) or already processed, in which case a
reinitialised collector for this header is used. -/
def effColl (cols : List (Nat × PF_Coll)) (ps fc : Nat) : PF_Coll :=
  let c0 := (alookup cols ps).getD {}
  if c0.fcount = 0 ∨ c0.processed then
    { pseq := ps, fcount := fc, fragments_collected := 0,
      processed := false, fragments := [] }
  else c0

/-- One `handle_pf_packet` call on a well-formed single-Pseq fragment
packet, restated over the effective collector. -/
def stepRhs (cols : List (Nat × PF_Coll)) (ps i fc : Nat) (pay : Bytes) :
    PF_Reassembler × Option Bytes :=
  let c := effColl cols ps fc
  if i ≥ c.fcount then ({ collectors := ainsert cols ps c }, none)
  else if (alookup c.fragments i).isSome then
    ({ collectors := ainsert cols ps c }, none)
  else
    let c2 : PF_Coll := { c with fragments := ainsert c.fragments i pay,
                                 fragments_collected := c.fragments_collected + 1 }
    if c2.fragments_collected < c2.fcount then
      ({ collectors := ainsert cols ps c2 }, none)
    else
      let c3 : PF_Coll := { c2 with processed := true }
      if (List.range c3.fcount).all (fun j => (alookup c3.fragments j).isSome) then
        (cleanup_old_collectors { collectors := ainsert cols ps c3 },
         some ((List.range c3.fcount).foldl
           (fun acc j => acc ++ (alookup c3.fragments j).getD []) []))
      else ({ collectors := ainsert cols ps c3 }, none)

/-- Symbolic characterisation of one `handle_pf_packet` call on a
well-formed single-Pseq fragment packet. -/
theorem handle_mkPf_eq (st : PF_Reassembler) (ps i fc : Nat) (pay : Bytes)
    (hpl : pay.length < 2 ^ 14) :
    handle_pf_packet st (mkPf ps i fc pay) = stepRhs st.collectors ps i fc pay := by
  rw [handle_pf_packet, parse_mkPf ps i fc pay hpl]
  dsimp only
  unfold add_fragment stepRhs effColl
  dsimp only
  simp only [show (if (0 : Nat) ≠ 0 then 2 else 0) = 0 by norm_num,
             show (if (0 : Nat) ≠ 0 then 4 else 0) = 0 by norm_num]
  rw [if_neg (by
    simp only [mkPf, List.length_append, List.length_cons, List.length_nil]
    omega)]
  simp only [show (12 : Nat) + 0 + 0 + 2 = 14 from rfl, mkPf_payload]

/-- Invariant of a single-Pseq PF run: at most one collector, holding
exactly the already-seen payloads, with every emitted AF equal to the
in-order concatenation of all payloads. -/
def PfInv (ps fc : Nat) (payload : Nat → Bytes)
    (st : PF_Reassembler) (out : List Bytes) (seen : List Nat) : Prop :=
  (∀ af ∈ out, af = ((List.range fc).map payload).join) ∧
  ((st.collectors = [] ∧ out = [] ∧ seen = []) ∨
   (∃ c : PF_Coll, st.collectors = [(ps, c)] ∧ c.fcount = fc ∧
     c.fragments_collected = c.fragments.length ∧
     (∀ e ∈ c.fragments, e.1 < fc ∧ e.2 = payload e.1) ∧
     (c.fragments.map Prod.fst).Nodup ∧
     (c.processed = false → c.fragments.length < fc) ∧
     (c.processed = true → out ≠ []) ∧
     (out = [] → c.processed = false ∧
       ∀ j, (alookup c.fragments j).isSome ↔ j ∈ seen)))

theorem af_eq_join (frag : List (Nat × Bytes)) (fc : Nat) (payload : Nat → Bytes)
    (hmem : ∀ e ∈ frag, e.2 = payload e.1)
    (hall : ∀ j, j < fc → (alookup frag j).isSome) :
    (List.range fc).foldl (fun acc j => acc ++ (alookup frag j).getD []) []
      = ((List.range fc).map payload).join := by
  rw [foldl_append_eq_join, List.nil_append]
  congr 1
  apply List.map_congr_left
  intro j hj
  obtain ⟨b, hb⟩ := Option.isSome_iff_exists.mp (hall j (List.mem_range.mp hj))
  rw [hb]
  simp only [Option.getD_some]
  exact hmem (j, b) (alookup_mem _ _ _ hb)

/-- A fragment arriving at a fresh (or reinitialised) collector either
starts a partial collection or, when `fcount = 1`, completes at once. -/
theorem pf_step_fresh (ps fc : Nat) (payload : Nat → Bytes) (hf : 1 ≤ fc)
    (i : Nat) (hi : i < fc) (cols : List (Nat × PF_Coll))
    (heff : effColl cols ps fc = ⟨ps, fc, 0, false, []⟩)
    (hins : ∀ X : PF_Coll, ainsert cols ps X = [(ps, X)]) :
    stepRhs cols ps i fc (payload i) =
      if 1 < fc then
        ({ collectors := [(ps, ⟨ps, fc, 1, false, [(i, payload i)]⟩)] }, none)
      else
        ({ collectors := [(ps, ⟨ps, fc, 1, true, [(i, payload i)]⟩)] },
         some (((List.range fc).map payload).join)) := by
  unfold stepRhs
  dsimp only
  simp only [heff]
  rw [if_neg (show ¬ i ≥ fc by omega)]
  rw [show (alookup ([] : List (Nat × Bytes)) i).isSome = false from rfl]
  rw [if_neg Bool.false_ne_true]
  simp only [ainsert, Nat.zero_add]
  by_cases h1 : 1 < fc
  · simp only [if_pos h1]
    rw [hins]
  · simp only [if_neg h1]
    have hfc1 : fc = 1 := by omega
    subst hfc1
    have hi0 : i = 0 := by omega
    subst hi0
    rw [if_pos (show ((List.range 1).all
        fun j => (alookup [(0, payload 0)] j).isSome) = true from rfl)]
    rw [hins, cleanup_singleton]
    rw [af_eq_join [(0, payload 0)] 1 payload
      (by
        intro e he
        simp only [List.mem_singleton] at he
        subst he
        rfl)
      (by
        intro j hj
        have hj0 : j = 0 := by omega
        subst hj0
        rfl)]

/-- Feeding one in-range fragment preserves the single-Pseq invariant. -/
theorem pf_step (ps fc : Nat) (payload : Nat → Bytes) (hf : 1 ≤ fc)
    (i : Nat) (hi : i < fc) (hpl : (payload i).length < 2 ^ 14)
    (st : PF_Reassembler) (out : List Bytes) (seen : List Nat)
    (hinv : PfInv ps fc payload st out seen) :
    PfInv ps fc payload (handle_pf_packet st (mkPf ps i fc (payload i))).1
      (out ++ (handle_pf_packet st (mkPf ps i fc (payload i))).2.toList)
      (seen ++ [i]) := by
  unfold PfInv at hinv ⊢
  obtain ⟨hout, hcase⟩ := hinv
  rw [handle_mkPf_eq st ps i fc (payload i) hpl]
  rcases hcase with ⟨hcols, houtnil, hseen⟩ | ⟨c, hcols, hfc, hcoll, hmem, hnd, hlenb, hproc, hiff⟩
  · -- fresh reassembler: the fragment opens (or opens-and-closes) a collector
    subst houtnil
    subst hseen
    rw [hcols, pf_step_fresh ps fc payload hf i hi [] rfl (fun X => rfl)]
    by_cases h1 : 1 < fc
    · rw [if_pos h1]
      refine ⟨by simp, Or.inr ⟨⟨ps, fc, 1, false, [(i, payload i)]⟩, rfl, rfl, rfl, ?_, by simp,
        ?_, ?_, ?_⟩⟩
      · intro e he
        simp only [List.mem_singleton] at he
        subst he
        exact ⟨hi, rfl⟩
      · intro _
        simpa using h1
      · intro h
        simp at h
      · intro _
        refine ⟨rfl, fun j => ?_⟩
        by_cases hj : j = i <;> simp [alookup, hj]
    · rw [if_neg h1]
      have hfc1 : fc = 1 := by omega
      subst hfc1
      have hi0 : i = 0 := by omega
      subst hi0
      refine ⟨?_, Or.inr ⟨⟨ps, 1, 1, true, [(0, payload 0)]⟩, rfl, rfl, rfl, ?_, by simp,
        ?_, ?_, ?_⟩⟩
      · intro af haf
        simpa using haf
      · intro e he
        simp only [List.mem_singleton] at he
        subst he
        exact ⟨Nat.one_pos, rfl⟩
      · intro h
        simp at h
      · intro _
        simp
      · intro h
        simp at h
  · -- an existing collector for this Pseq
    have hl : alookup [(ps, c)] ps = some c := by simp [alookup]
    have hins : ∀ X : PF_Coll, ainsert [(ps, c)] ps X = [(ps, X)] := by
      intro X
      simp [ainsert]
    rw [hcols]
    by_cases hp : c.processed
    · -- processed collector: reinitialised, as in the fresh case
      have heff : effColl [(ps, c)] ps fc = ⟨ps, fc, 0, false, []⟩ := by
        unfold effColl
        rw [hl]
        dsimp only
        simp only [Option.getD_some]
        rw [if_pos (Or.inr hp)]
      have hne : out ≠ [] := hproc hp
      rw [pf_step_fresh ps fc payload hf i hi _ heff hins]
      by_cases h1 : 1 < fc
      · rw [if_pos h1]
        simp only [List.append_nil, Option.toList_none]
        refine ⟨hout, Or.inr ⟨⟨ps, fc, 1, false, [(i, payload i)]⟩, rfl, rfl, rfl, ?_, by simp,
          ?_, ?_, ?_⟩⟩
        · intro e he
          simp only [List.mem_singleton] at he
          subst he
          exact ⟨hi, rfl⟩
        · intro _
          simpa using h1
        · intro h
          simp at h
        · intro h
          exact absurd h hne
      · rw [if_neg h1]
        have hfc1 : fc = 1 := by omega
        subst hfc1
        have hi0 : i = 0 := by omega
        subst hi0
        refine ⟨?_, Or.inr ⟨⟨ps, 1, 1, true, [(0, payload 0)]⟩, rfl, rfl, rfl, ?_, by simp,
          ?_, ?_, ?_⟩⟩
        · intro af haf
          rcases List.mem_append.mp haf with h | h
          · exact hout af h
          · simpa using h
        · intro e he
          simp only [List.mem_singleton] at he
          subst he
          exact ⟨Nat.one_pos, rfl⟩
        · intro h
          simp at h
        · intro _
          simp
        · intro h
          simp at h
    · -- live collector: the stored one is used unchanged
      have hp' : c.processed = false := by simpa using hp
      have heff : effColl [(ps, c)] ps fc = c := by
        unfold effColl
        rw [hl]
        dsimp only
        simp only [Option.getD_some]
        rw [if_neg (by
          push_neg
          refine ⟨by omega, by simp [hp']⟩)]
      unfold stepRhs
      dsimp only
      simp only [heff]
      rw [if_neg (show ¬ i ≥ c.fcount by rw [hfc]; omega)]
      by_cases hdup : (alookup c.fragments i).isSome
      · -- duplicate Findex: absorbed without change
        rw [if_pos hdup]
        simp only [hins, List.append_nil, Option.toList_none]
        refine ⟨hout, Or.inr ⟨c, rfl, hfc, hcoll, hmem, hnd, hlenb, hproc, ?_⟩⟩
        intro hempty
        obtain ⟨hp2, hold⟩ := hiff hempty
        refine ⟨hp2, fun j => ?_⟩
        rw [List.mem_append, List.mem_singleton]
        constructor
        · intro hs
          exact Or.inl ((hold j).mp hs)
        · rintro (hs | rfl)
          · exact (hold j).mpr hs
          · exact hdup
      · rw [if_neg hdup]
        have hnone : alookup c.fragments i = none := Option.not_isSome_iff_eq_none.mp hdup
        have hfr : ainsert c.fragments i (payload i) = c.fragments ++ [(i, payload i)] :=
          ainsert_of_none _ _ _ hnone
        have hkeys : i ∉ c.fragments.map Prod.fst := (alookup_none_iff _ _).mp hnone
        simp only [hcoll, hfc]
        by_cases hcomp : c.fragments.length + 1 < fc
        · -- still incomplete
          rw [if_pos hcomp]
          simp only [hins, List.append_nil, Option.toList_none]
          refine ⟨hout, Or.inr ⟨_, rfl, rfl, ?_, ?_, ?_, ?_, ?_, ?_⟩⟩
          · rw [hfr]
            simp
          · intro e he
            rw [hfr] at he
            rcases List.mem_append.mp he with h | h
            · exact hmem e h
            · simp only [List.mem_singleton] at h
              subst h
              exact ⟨hi, rfl⟩
          · rw [hfr, List.map_append]
            simp [List.nodup_append, hnd, hkeys]
          · intro _
            rw [hfr]
            simp only [List.length_append, List.length_cons, List.length_nil]
            omega
          · intro hpt
            exact hproc hpt
          · intro hempty
            obtain ⟨hp2, hold⟩ := hiff hempty
            refine ⟨hp', fun j => ?_⟩
            rw [alookup_isSome_ainsert, List.mem_append, List.mem_singleton, hold j]
            exact or_comm
        · -- the last missing fragment: completion fires
          rw [if_neg hcomp]
          have hnd' : ((c.fragments ++ [(i, payload i)]).map Prod.fst).Nodup := by
            rw [List.map_append]
            simp [List.nodup_append, hnd, hkeys]
          have hltall : ∀ k ∈ (c.fragments ++ [(i, payload i)]).map Prod.fst, k < fc := by
            intro k hk
            rw [List.map_append] at hk
            rcases List.mem_append.mp hk with h | h
            · obtain ⟨e, he, hke⟩ := List.mem_map.mp h
              rw [← hke]
              exact (hmem e he).1
            · simp only [List.map_cons, List.map_nil, List.mem_singleton] at h
              subst h
              exact hi
          have hfull : ∀ j < fc, j ∈ (c.fragments ++ [(i, payload i)]).map Prod.fst :=
            nodup_bounded_full _ fc hnd' hltall (by simp; omega)
          have hallSome : ∀ j, j < fc → (alookup (ainsert c.fragments i (payload i)) j).isSome := by
            intro j hj
            rw [alookup_isSome_iff_mem_keys, hfr]
            exact hfull j hj
          have hmem' : ∀ e ∈ ainsert c.fragments i (payload i), e.2 = payload e.1 := by
            intro e he
            rw [hfr] at he
            rcases List.mem_append.mp he with h | h
            · exact (hmem e h).2
            · simp only [List.mem_singleton] at h
              subst h
              rfl
          rw [if_pos (List.all_eq_true.mpr fun j hj => hallSome j (List.mem_range.mp hj))]
          rw [hins, cleanup_singleton]
          rw [af_eq_join (ainsert c.fragments i (payload i)) fc payload hmem' hallSome]
          refine ⟨?_, Or.inr ⟨_, rfl, rfl, ?_, ?_, ?_, ?_, ?_, ?_⟩⟩
          · intro af haf
            rcases List.mem_append.mp haf with h | h
            · exact hout af h
            · simpa using h
          · rw [hfr]
            simp
          · intro e he
            rw [hfr] at he
            rcases List.mem_append.mp he with h | h
            · exact hmem e h
            · simp only [List.mem_singleton] at h
              subst h
              exact ⟨hi, rfl⟩
          · rw [hfr]
            exact hnd'
          · intro h
            simp at h
          · intro _
            simp
          · intro h
            simp at h

/-- Iterating `pf_step` over a whole list of in-range Findex values. -/
theorem pf_run_inv (ps fc : Nat) (payload : Nat → Bytes) (hf : 1 ≤ fc)
    (hpl : ∀ i, i < fc → (payload i).length < 2 ^ 14) :
    ∀ (order : List Nat), (∀ i ∈ order, i < fc) →
    ∀ (st : PF_Reassembler) (out : List Bytes) (seen : List Nat),
    PfInv ps fc payload st out seen →
    PfInv ps fc payload
      (runPf st (order.map (fun i => mkPf ps i fc (payload i)))).1
      (out ++ (runPf st (order.map (fun i => mkPf ps i fc (payload i)))).2)
      (seen ++ order) := by
  intro order
  induction order with
  | nil =>
      intro _ st out seen hinv
      simpa [runPf] using hinv
  | cons i rest ih =>
      intro horder st out seen hinv
      have hi : i < fc := horder i (List.mem_cons_self i rest)
      have hstep := pf_step ps fc payload hf i hi (hpl i hi) st out seen hinv
      have htail := ih (fun j hj => horder j (List.mem_cons_of_mem i hj))
        (handle_pf_packet st (mkPf ps i fc (payload i))).1
        (out ++ (handle_pf_packet st (mkPf ps i fc (payload i))).2.toList)
        (seen ++ [i]) hstep
      simp only [List.map_cons, runPf_cons]
      simpa [List.append_assoc] using htail

/-- C2 — order independence of PF reassembly within one Pseq: for any
`fcount ≥ 1`, any payload per Findex, and any arrival order that covers
every Findex in `0..fcount-1` (duplicates allowed), at least one AF packet
is assembled and every assembled AF packet is the concatenation of the
payloads in increasing Findex order. -/
theorem pf_reassembly_order_independent (ps fc : Nat) (payload : Nat → Bytes)
    (order : List Nat) (hf : 1 ≤ fc)
    (hpl : ∀ i, i < fc → (payload i).length < 2 ^ 14)
    (hdom : ∀ i ∈ order, i < fc)
    (hcov : ∀ i, i < fc → i ∈ order) :
    (runPf {} (order.map (fun i => mkPf ps i fc (payload i)))).2 ≠ [] ∧
    ∀ af ∈ (runPf {} (order.map (fun i => mkPf ps i fc (payload i)))).2,
      af = ((List.range fc).map payload).join := by
  have h0 : PfInv ps fc payload {} [] [] := by
    unfold PfInv
    exact ⟨by simp, Or.inl ⟨rfl, rfl, rfl⟩⟩
  have h := pf_run_inv ps fc payload hf hpl order hdom {} [] [] h0
  simp only [List.nil_append] at h
  unfold PfInv at h
  obtain ⟨hout, hcase⟩ := h
  refine ⟨?_, hout⟩
  intro hempty
  rcases hcase with ⟨hcols, houtnil, hseen⟩ | ⟨c, hcols, hfc, hcoll, hmem, hnd, hlenb, hproc, hiff⟩
  · have h0mem := hcov 0 hf
    rw [hseen] at h0mem
    exact absurd h0mem (List.not_mem_nil 0)
  · obtain ⟨hnp, hiffk⟩ := hiff hempty
    have hfull : ∀ j < fc, j ∈ c.fragments.map Prod.fst := by
      intro j hj
      exact (alookup_isSome_iff_mem_keys _ _).mp ((hiffk j).mpr (hcov j hj))
    have hge : fc ≤ (c.fragments.map Prod.fst).length := length_ge_of_full _ _ hfull
    have hlt := hlenb hnp
    rw [List.length_map] at hge
    omega

theorem pf_reassembly_order_independent_witness :
    (runPf {} ([1, 0, 1].map (fun i => mkPf 7 i 2 [i + 1]))).2 ≠ [] ∧
    [1, 2] ∈ (runPf {} ([1, 0, 1].map (fun i => mkPf 7 i 2 [i + 1]))).2 := by
  obtain ⟨hne, hall⟩ := pf_reassembly_order_independent 7 2 (fun j => [j + 1]) [1, 0, 1]
    (by norm_num)
    (by
      intro i hi
      interval_cases i <;> norm_num)
    (by decide)
    (by
      intro i hi
      interval_cases i <;> decide)
  refine ⟨hne, ?_⟩
  obtain ⟨af, haf⟩ := List.exists_mem_of_ne_nil _ hne
  have h2 := hall af haf
  rw [show ((List.range 2).map (fun j => [j + 1])).join = [1, 2] from rfl] at h2
  rw [← h2]
  exact haf


/-- GSE fragment reassembly buffer (`GseFragment`, gse_parser.hpp), with
the default-constructed values of the `std::array` slots. -/
structure GseFrag where
  data : Bytes := []
  total_length : Nat := 0
  current_pos : Nat := 0
  active : Bool := false
  deriving Repr, DecidableEq

structure GseState where
  fragments : List (Nat × GseFrag) := []
  packet_count : Nat := 0
  fragment_count : Nat := 0
  deriving Repr, DecidableEq

/-- Result of `GseParser::processGsePacket`: new state, the IPv4 packet the
callback would receive (if any), the boolean return, and `consumed`. -/
structure GseResult where
  st : GseState
  emitted : Option Bytes
  ok : Bool
  consumed : Nat
  deriving Repr, DecidableEq

/-- `memcpy` of `src` into a fixed-size buffer `l` at offset `p`; every
call site is bounds-guarded, and the final clamp keeps the buffer size. -/
def writeAt (l : Bytes) (p : Nat) (src : Bytes) : Bytes :=
  (l.take p ++ src ++ l.drop (p + src.length)).take l.length

/-- `std::vector::resize`: keep the prefix, zero-fill the extension. -/
def resizeB (l : Bytes) (n : Nat) : Bytes :=
  l.take n ++ List.replicate (n - l.length) 0

/-- The guarded fragment append shared by middle and last fragments
(gse_parser.cpp lines 326-329 and 343-346): copy only when it fits,
otherwise leave the buffer untouched. -/
def gseAppend (frag : GseFrag) (src : Bytes) : GseFrag :=
  if frag.current_pos + src.length ≤ frag.data.length then
    { frag with data := writeAt frag.data frag.current_pos src,
                current_pos := frag.current_pos + src.length }
  else frag

/-- `GseParser::emitIpv4Packet` (gse_parser.cpp lines 384-398); the
returned bytes are what the callback receives. -/
def emitIpv4Packet (ip : Bytes) : Option Bytes :=
  if ip.length < 20 then none
  else if getB ip 0 >>> 4 ≠ 4 then none
  else
    let tl := (getB ip 2 <<< 8) ||| getB ip 3
    let tl2 := if tl > ip.length then ip.length else tl
    some (ip.take tl2)

/-- `GseParser::handleCompleteGsePayload` (gse_parser.cpp lines 359-382),
with the `{0, 3, 6}` label-length loop unrolled. -/
def handleCompleteGsePayload (d : Bytes) : Option Bytes :=
  if d.length < 4 then none
  else if ((getB d 0 <<< 8) ||| getB d 1) ≠ 0x0800 then none
  else if 2 + 0 + 20 ≤ d.length ∧ getB d 2 &&& 0xF0 = 0x40 then emitIpv4Packet (d.drop 2)
  else if 2 + 3 + 20 ≤ d.length ∧ getB d 5 &&& 0xF0 = 0x40 then emitIpv4Packet (d.drop 5)
  else if 2 + 6 + 20 ≤ d.length ∧ getB d 8 &&& 0xF0 = 0x40 then emitIpv4Packet (d.drop 8)
  else none

/-- `GseParser::processGsePacket` (gse_parser.cpp lines 240-357). -/
def processGsePacket (st : GseState) (pkt : Bytes) : GseResult :=
  if pkt.length < 2 then ⟨st, none, false, 0⟩
  else
    let gse_header := getB pkt 0
    let gse_len := ((gse_header &&& 0x0f) <<< 8) ||| getB pkt 1
    if gse_header &&& 0xf0 = 0 then ⟨st, none, false, 0⟩
    else
      let consumed := gse_len + 2
      if consumed > pkt.length then ⟨st, none, false, consumed⟩
      else
        let start := (gse_header >>> 7) &&& 1
        let stop := (gse_header >>> 6) &&& 1
        if start = 1 then
          if stop = 1 then
            ⟨{ st with packet_count := st.packet_count + 1 },
             handleCompleteGsePayload ((pkt.drop 2).take gse_len), true, consumed⟩
          else
            -- First fragment (S=1, E=0): FragID + TotalLength + Protocol + [Label] + Data
            if gse_len < 7 then ⟨st, none, true, consumed⟩
            else
              let frag_id := getB pkt 2
              let total_len := (getB pkt 3 <<< 8) ||| getB pkt 4
              let lt := (gse_header >>> 4) &&& 3
              let label_len := if lt = 0 then 6 else if lt = 1 then 3 else 0
              let proto_offset := 5 + label_len
              if proto_offset + 2 > gse_len + 2 then ⟨st, none, true, consumed⟩
              else
                let protocol := (getB pkt proto_offset <<< 8) ||| getB pkt (proto_offset + 1)
                if protocol ≠ 0x0800 then ⟨st, none, true, consumed⟩
                else if total_len > 2000 ∨ total_len < 28 then ⟨st, none, true, consumed⟩
                else
                  let frag0 := (alookup st.fragments frag_id).getD {}
                  let d1 := writeAt (resizeB frag0.data (total_len + 2)) 0
                    [gse_header ||| 0xC0, getB pkt 1]
                  let payload_len := gse_len - 3
                  let frag1 : GseFrag :=
                    if 2 + payload_len ≤ d1.length then
                      { data := writeAt d1 2 ((pkt.drop 5).take payload_len),
                        total_length := total_len + 2, current_pos := 2 + payload_len,
                        active := true }
                    else
                      { data := d1, total_length := total_len + 2, current_pos := 0,
                        active := false }
                  ⟨{ st with fragments := ainsert st.fragments frag_id frag1,
                             fragment_count := st.fragment_count + 1 }, none, true, consumed⟩
        else
          if stop = 1 then
            -- Last fragment (S=0, E=1): FragID + Data + CRC32
            if gse_len < 5 then ⟨st, none, true, consumed⟩
            else
              let frag_id := getB pkt 2
              let frag := (alookup st.fragments frag_id).getD {}
              if frag.active = false then ⟨st, none, true, consumed⟩
              else
                let frag2 := gseAppend frag ((pkt.drop 3).take (gse_len - 5))
                ⟨{ st with fragments := ainsert st.fragments frag_id
                             { frag2 with active := false },
                           packet_count := st.packet_count + 1,
                           fragment_count := st.fragment_count + 1 },
                 handleCompleteGsePayload ((frag2.data.drop 2).take (frag2.current_pos - 2)),
                 true, consumed⟩
          else
            -- Middle fragment (S=0, E=0): FragID + Data
            if gse_len < 1 then ⟨st, none, true, consumed⟩
            else
              let frag_id := getB pkt 2
              let frag := (alookup st.fragments frag_id).getD {}
              if frag.active = false then ⟨st, none, true, consumed⟩
              else
                ⟨{ st with fragments := ainsert st.fragments frag_id
                             (gseAppend frag ((pkt.drop 3).take (gse_len - 1))),
                           fragment_count := st.fragment_count + 1 }, none, true, consumed⟩

/-- C10 (amended) — once a fragment-ID is active, a middle fragment
(S=0, E=0) appends its payload exactly when it fits in the buffer,
leaving the buffer active and untouched otherwise (no discard); a last
fragment (S=0, E=1) appends its payload the same way and then UNCONDITIONALLY
hands the accumulated bytes `data[2..current_pos)` to
`handleCompleteGsePayload` and deactivates the ID — without ever comparing
`current_pos` with the recorded `total_length`. -/
theorem gse_fragment_append_emit_spec (st : GseState) (pkt : Bytes) (fid : Nat)
    (frag : GseFrag)
    (hpad : getB pkt 0 &&& 0xf0 ≠ 0)
    (hS : (getB pkt 0 >>> 7) &&& 1 = 0)
    (hfit : (((getB pkt 0 &&& 0x0f) <<< 8) ||| getB pkt 1) + 2 ≤ pkt.length)
    (hid : getB pkt 2 = fid)
    (hfrag : alookup st.fragments fid = some frag)
    (hact : frag.active = true) :
    ((getB pkt 0 >>> 6) &&& 1 = 0 →
      1 ≤ ((getB pkt 0 &&& 0x0f) <<< 8) ||| getB pkt 1 →
      (processGsePacket st pkt).emitted = none ∧
      (processGsePacket st pkt).st.fragments = ainsert st.fragments fid
        (gseAppend frag
          ((pkt.drop 3).take ((((getB pkt 0 &&& 0x0f) <<< 8) ||| getB pkt 1) - 1))) ∧
      (gseAppend frag
        ((pkt.drop 3).take ((((getB pkt 0 &&& 0x0f) <<< 8) ||| getB pkt 1) - 1))).active
        = true) ∧
    ((getB pkt 0 >>> 6) &&& 1 = 1 →
      5 ≤ ((getB pkt 0 &&& 0x0f) <<< 8) ||| getB pkt 1 →
      (processGsePacket st pkt).emitted = handleCompleteGsePayload
        (((gseAppend frag
            ((pkt.drop 3).take ((((getB pkt 0 &&& 0x0f) <<< 8) ||| getB pkt 1) - 5))).data.drop
              2).take
          ((gseAppend frag
            ((pkt.drop 3).take ((((getB pkt 0 &&& 0x0f) <<< 8) ||| getB pkt 1) - 5))).current_pos
            - 2)) ∧
      (processGsePacket st pkt).st.fragments = ainsert st.fragments fid
        { gseAppend frag
            ((pkt.drop 3).take ((((getB pkt 0 &&& 0x0f) <<< 8) ||| getB pkt 1) - 5)) with
          active := false }) := by
  constructor
  · intro hE h1
    unfold processGsePacket
    dsimp only
    rw [if_neg (show ¬ pkt.length < 2 by omega)]
    rw [if_neg hpad]
    rw [if_neg (show ¬ (((getB pkt 0 &&& 0x0f) <<< 8) ||| getB pkt 1) + 2 > pkt.length
      by omega)]
    rw [hS]
    rw [if_neg (show ¬ (0 : Nat) = 1 by omega)]
    rw [hE]
    rw [if_neg (show ¬ (0 : Nat) = 1 by omega)]
    rw [if_neg (show ¬ ((getB pkt 0 &&& 0x0f) <<< 8) ||| getB pkt 1 < 1 by omega)]
    rw [hid, hfrag]
    simp only [Option.getD_some]
    rw [if_neg (show ¬ frag.active = false by simp [hact])]
    exact ⟨rfl, rfl, by unfold gseAppend; split_ifs <;> exact hact⟩
  · intro hE h5
    unfold processGsePacket
    dsimp only
    rw [if_neg (show ¬ pkt.length < 2 by omega)]
    rw [if_neg hpad]
    rw [if_neg (show ¬ (((getB pkt 0 &&& 0x0f) <<< 8) ||| getB pkt 1) + 2 > pkt.length
      by omega)]
    rw [hS]
    rw [if_neg (show ¬ (0 : Nat) = 1 by omega)]
    rw [hE]
    rw [if_pos (show (1 : Nat) = 1 from rfl)]
    rw [if_neg (show ¬ ((getB pkt 0 &&& 0x0f) <<< 8) ||| getB pkt 1 < 5 by omega)]
    rw [hid, hfrag]
    simp only [Option.getD_some]
    rw [if_neg (show ¬ frag.active = false by simp [hact])]
    exact ⟨rfl, rfl⟩

/-- A first fragment announcing an IPv4 packet of total length 100: only
22 payload bytes (protocol + a 20-byte IPv4 header) are delivered. -/
def gseCexFirst : Bytes :=
  [0xA0, 25, 1, 0, 100, 0x08, 0x00, 0x45, 0, 0, 100] ++ List.replicate 16 0

/-- An immediately following last fragment for the same ID with an empty
payload (only FragID + CRC32). -/
def gseCexLast : Bytes := [0x70, 5, 1, 0, 0, 0, 0]

/-- C10 counterexample — after the first fragment, ID 1 is active with
`current_pos = 24`, far short of `total_length = 102`; the last fragment
nevertheless triggers an IPv4 emission: `processGsePacket` never checks
`current_pos == total_length` before handing the buffer over, and no
mismatch ever discards a buffer. -/
theorem gse_emit_before_complete :
    ((alookup (processGsePacket {} gseCexFirst).st.fragments 1).getD {}).active = true ∧
    ((alookup (processGsePacket {} gseCexFirst).st.fragments 1).getD {}).current_pos = 24 ∧
    ((alookup (processGsePacket {} gseCexFirst).st.fragments 1).getD {}).total_length = 102 ∧
    (processGsePacket (processGsePacket {} gseCexFirst).st gseCexLast).emitted.isSome
      = true := by
  decide

/-- The collector state after `gseCexFirst`, written out. -/
def gseFragC : GseFrag :=
  { data := [0xE0, 25, 0x08, 0x00, 0x45, 0, 0, 100] ++ List.replicate 16 0
      ++ List.replicate 78 0,
    total_length := 102, current_pos := 24, active := true }

theorem gse_fragment_append_emit_spec_witness :
    (processGsePacket ⟨[(1, gseFragC)], 1, 1⟩ gseCexLast).emitted
      = some ([0x45, 0, 0, 100] ++ List.replicate 16 0) ∧
    (processGsePacket ⟨[(1, gseFragC)], 1, 1⟩ gseCexLast).st.fragments
      = [(1, { gseFragC with active := false })] := by
  obtain ⟨-, h2⟩ := gse_fragment_append_emit_spec ⟨[(1, gseFragC)], 1, 1⟩
    gseCexLast 1 gseFragC (by decide) (by decide) (by decide) (by decide) (by decide)
    (by decide)
  obtain ⟨hem, hfr⟩ := h2 (by decide) (by decide)
  constructor
  · rw [hem]
    decide
  · rw [hfr]
    decide

/-- `EdiParser::crc16` inner shift step (edi_parser.cpp lines 208-214),
on 16-bit values. -/
def crc16_shift (c : Nat) : Nat :=
  if c &&& 0x8000 ≠ 0 then ((c <<< 1) ^^^ 0x1021) &&& 0xFFFF
  else (c <<< 1) &&& 0xFFFF

/-- One byte of `EdiParser::crc16` (edi_parser.cpp lines 206-215): xor the
byte in high position, then eight shift steps. -/
def crc16_byte (c b : Nat) : Nat :=
  crc16_shift (crc16_shift (crc16_shift (crc16_shift
    (crc16_shift (crc16_shift (crc16_shift (crc16_shift
      ((c ^^^ (b <<< 8)) &&& 0xFFFF))))))))

/-- `EdiParser::crc16` (edi_parser.cpp lines 204-217). -/
def crc16 (data : Bytes) : Nat := (data.foldl crc16_byte 0xFFFF) ^^^ 0xFFFF

/-- One STC entry of the EDI collation (`eti_.subchannels[i]`). -/
structure EdiStc where
  scid : Nat := 0
  sad : Nat := 0
  tpl : Nat := 0
  mst : Bytes := []
  deriving Repr, DecidableEq

structure EdiFc where
  dflc : Nat := 0
  ficf : Bool := true
  nst : Nat := 0
  fp : Nat := 0
  mid : Nat := 0
  tsta : Nat := 0
  deriving Repr, DecidableEq

/-- The collated EDI state `eti_` consumed by `EdiParser::assembleEtiFrame`. -/
structure EdiEti where
  is_eti : Bool := false
  fc_valid : Bool := false
  err : Nat := 0
  fc : EdiFc := {}
  fic : Bytes := []
  subchannels : List EdiStc := []
  mnsc : Nat := 0
  rfu : Nat := 0
  deriving Repr, DecidableEq

/-- The FL accumulation (edi_parser.cpp lines 254-257), a `uint16`. -/
def etiFL (e : EdiEti) : Nat :=
  (e.fc.nst + 1 + e.fic.length / 4 +
    (List.range e.fc.nst).foldl
      (fun acc i => acc + (e.subchannels.getD i {}).mst.length / 4) 0) % 65536

/-- `fp_mid_fl` (edi_parser.cpp lines 259-261), a `uint16`. -/
def etiFpMidFl (e : EdiEti) : Nat :=
  ((e.fc.fp <<< 13) ||| (e.fc.mid <<< 11) ||| etiFL e) % 65536

/-- Bytes 0-7 of the assembled frame: ERR, FSYNC, FCT, FICF|NST and the
`fp_mid_fl` big-endian pair (edi_parser.cpp lines 229-263). -/
def etiLayerA (e : EdiEti) : Bytes :=
  writeAt (writeAt (writeAt (writeAt (List.replicate 6144 0)
    0 [e.err &&& 0xFF])
    1 (if e.fc.dflc % 250 % 2 = 1 then [0xF8, 0xC5, 0x49] else [0x07, 0x3A, 0xB6]))
    4 [e.fc.dflc % 250, ((if e.fc.ficf then 0x80 else 0x00) ||| e.fc.nst) &&& 0xFF])
    6 [etiFpMidFl e >>> 8, etiFpMidFl e &&& 0xFF]

/-- The STC entry writes (edi_parser.cpp lines 266-274). -/
def etiSTCWrites (e : EdiEti) (f : Bytes) : Bytes :=
  (List.range e.fc.nst).foldl (fun fb i =>
    let stc := e.subchannels.getD i {}
    let stl := stc.mst.length / 8
    writeAt fb (8 + i * 4)
      [((stc.scid <<< 2) ||| ((stc.sad >>> 8) &&& 0x03)) &&& 0xFF,
       stc.sad &&& 0xFF,
       ((stc.tpl <<< 2) ||| ((stl >>> 8) &&& 0x03)) &&& 0xFF,
       stl &&& 0xFF]) f

/-- The sub-channel MST payloads in stream order. -/
def etiMsts (e : EdiEti) : List Bytes :=
  (List.range e.fc.nst).map (fun i => (e.subchannels.getD i {}).mst)

/-- The in-loop bound check of the MST copy (edi_parser.cpp line 297):
before each copy, `idx + mst.size() > 6144 - 8` aborts the frame. -/
def mstFitsAux : Nat → List Bytes → Bool
  | _, [] => true
  | idx, m :: rest =>
      if idx + m.length > 6144 - 8 then false else mstFitsAux (idx + m.length) rest

/-- `EdiParser::assembleEtiFrame` (edi_parser.cpp lines 219-325); `none`
for every early `return`, otherwise the 6144-byte ETI-NI frame handed to
the callback.  The C++ writes sequentially into a zero-initialised array;
here each region write is a `writeAt`, and the abort check of the MST copy
loop is evaluated over the same cumulative indices before the copies (the
partially written array of an aborted call is never observable). -/
def assembleEtiFrame (e : EdiEti) : Option Bytes :=
  if e.is_eti = false ∨ e.fc_valid = false ∨ e.fic = [] then none
  else if e.fic.length ≠ (if e.fc.mid = 3 then 128 else 96) then none
  else
    let idx0 := 8 + e.fc.nst * 4
    let f5 := writeAt (etiSTCWrites e (etiLayerA e)) idx0
      [(e.mnsc >>> 8) &&& 0xFF, e.mnsc &&& 0xFF]
    let eoh_crc := crc16 ((f5.drop 4).take (idx0 - 4 + 2))
    let f6 := writeAt f5 (idx0 + 2) [eoh_crc >>> 8, eoh_crc &&& 0xFF]
    let mst_start := idx0 + 4
    let f7 := writeAt f6 mst_start e.fic
    let idx1 := mst_start + e.fic.length
    if mstFitsAux idx1 (etiMsts e) = false then none
    else
      let f8 := writeAt f7 idx1 (etiMsts e).join
      let idx2 := idx1 + ((etiMsts e).join).length
      let mst_crc := crc16 ((f8.drop mst_start).take (idx2 - mst_start))
      let f9 := writeAt f8 idx2 [mst_crc >>> 8, mst_crc &&& 0xFF]
      let f10 := writeAt f9 (idx2 + 2) [(e.rfu >>> 8) &&& 0xFF, e.rfu &&& 0xFF]
      let f11 := writeAt f10 (idx2 + 4)
        [(e.fc.tsta >>> 24) &&& 0xFF, (e.fc.tsta >>> 16) &&& 0xFF,
         (e.fc.tsta >>> 8) &&& 0xFF, e.fc.tsta &&& 0xFF]
      some (writeAt f11 (idx2 + 8) (List.replicate (6144 - (idx2 + 8)) 0x55))

theorem getB_ge (l : Bytes) (k : Nat) (h : l.length ≤ k) : getB l k = 0 := by
  simp only [getB, List.getD]
  rw [List.get?_eq_none.mpr h]
  rfl

theorem getB_take_lt (l : Bytes) (n i : Nat) (h : i < n) : getB (l.take n) i = getB l i := by
  simp only [getB, List.getD]
  rw [List.get?_take h]

theorem getB_append_ge (l1 l2 : Bytes) (i : Nat) (h : l1.length ≤ i) :
    getB (l1 ++ l2) i = getB l2 (i - l1.length) := by
  simp only [getB, List.getD]
  rw [List.get?_append_right h]

theorem writeAt_length (l : Bytes) (p : Nat) (src : Bytes) :
    (writeAt l p src).length = l.length := by
  unfold writeAt
  simp only [List.length_take, List.length_append, List.length_drop]
  omega

theorem getB_writeAt_lt (l : Bytes) (p : Nat) (src : Bytes) (k : Nat) (hk : k < p) :
    getB (writeAt l p src) k = getB l k := by
  unfold writeAt
  by_cases hkl : k < l.length
  · rw [getB_take_lt _ _ _ hkl]
    rw [getB_mkPf_lt _ _ _ (by
      simp only [List.length_append, List.length_take]
      omega)]
    rw [getB_mkPf_lt _ _ _ (by
      simp only [List.length_take]
      omega)]
    exact getB_take_lt _ _ _ hk
  · rw [getB_ge _ _ (by
      have := List.length_take_le l.length (l.take p ++ src ++ l.drop (p + src.length))
      omega)]
    rw [getB_ge _ _ (by omega)]

theorem getB_writeAt_pair (l : Bytes) (p a b : Nat) (h : p + 2 ≤ l.length) :
    getB (writeAt l p [a, b]) p = a ∧ getB (writeAt l p [a, b]) (p + 1) = b := by
  have hpl : (l.take p).length = p := by
    simp only [List.length_take]
    omega
  unfold writeAt
  constructor
  · rw [getB_take_lt _ _ _ (by omega)]
    rw [List.append_assoc]
    rw [getB_append_ge _ _ _ (le_of_eq hpl)]
    rw [hpl, Nat.sub_self]
    rfl
  · rw [getB_take_lt _ _ _ (by omega)]
    rw [List.append_assoc]
    rw [getB_append_ge _ _ _ (by omega)]
    rw [hpl, show p + 1 - p = 1 by omega]
    rfl

theorem getB_foldl_writeAt {α : Type} (P : α → Nat) (F : α → Bytes) (k : Nat) :
    ∀ (xs : List α), (∀ a ∈ xs, k < P a) → ∀ f : Bytes,
      getB (xs.foldl (fun fb a => writeAt fb (P a) (F a)) f) k = getB f k := by
  intro xs
  induction xs with
  | nil => intro _ f; rfl
  | cons x rest ih =>
      intro hk f
      rw [List.foldl_cons]
      rw [ih (fun a ha => hk a (List.mem_cons_of_mem x ha)) _]
      exact getB_writeAt_lt _ _ _ _ (hk x (List.mem_cons_self x rest))

theorem getB_etiSTCWrites (e : EdiEti) (f : Bytes) (k : Nat) (hk : k < 8) :
    getB (etiSTCWrites e f) k = getB f k := by
  unfold etiSTCWrites
  dsimp only
  exact getB_foldl_writeAt _ _ k (List.range e.fc.nst) (fun i _ => by omega) f

theorem getB_etiLayerA (e : EdiEti) :
    getB (etiLayerA e) 6 = etiFpMidFl e >>> 8 ∧
    getB (etiLayerA e) 7 = etiFpMidFl e &&& 0xFF := by
  unfold etiLayerA
  exact getB_writeAt_pair _ 6 _ _ (by
    rw [writeAt_length, writeAt_length, writeAt_length, List.length_replicate]
    norm_num)

theorem getB67_layers (k : Nat) (hk : k < 8) (g : Bytes) (n a1 a2 : Nat)
    (s1 s2 s3 s4 s5 s6 s7 s8 : Bytes) :
    getB (writeAt (writeAt (writeAt (writeAt (writeAt (writeAt (writeAt (writeAt g
        (8 + n) s1)
        (8 + n + 2) s2)
        (8 + n + 4) s3)
        (8 + n + 4 + a1) s4)
        (8 + n + 4 + a1 + a2) s5)
        (8 + n + 4 + a1 + a2 + 2) s6)
        (8 + n + 4 + a1 + a2 + 4) s7)
        (8 + n + 4 + a1 + a2 + 8) s8) k
      = getB g k := by
  rw [getB_writeAt_lt _ _ _ _ (by omega)]
  rw [getB_writeAt_lt _ _ _ _ (by omega)]
  rw [getB_writeAt_lt _ _ _ _ (by omega)]
  rw [getB_writeAt_lt _ _ _ _ (by omega)]
  rw [getB_writeAt_lt _ _ _ _ (by omega)]
  rw [getB_writeAt_lt _ _ _ _ (by omega)]
  rw [getB_writeAt_lt _ _ _ _ (by omega)]
  rw [getB_writeAt_lt _ _ _ _ (by omega)]

/-- Bytes 6-7 of every frame `assembleEtiFrame` emits are the big-endian
`fp_mid_fl` pair; the FIC length guard also holds. -/
theorem eti_frame_bytes67 (e : EdiEti) (frame : Bytes)
    (hsome : assembleEtiFrame e = some frame) :
    getB frame 6 = etiFpMidFl e >>> 8 ∧ getB frame 7 = etiFpMidFl e &&& 0xFF ∧
    e.fic.length = (if e.fc.mid = 3 then 128 else 96) := by
  unfold assembleEtiFrame at hsome
  by_cases h1 : (e.is_eti = false ∨ e.fc_valid = false ∨ e.fic = [])
  · rw [if_pos h1] at hsome
    exact absurd hsome (by simp)
  · rw [if_neg h1] at hsome
    by_cases h2 : e.fic.length ≠ (if e.fc.mid = 3 then 128 else 96)
    · rw [if_pos h2] at hsome
      exact absurd hsome (by simp)
    · rw [if_neg h2] at hsome
      have hfic := not_ne_iff.mp h2
      dsimp only at hsome
      by_cases h3 : mstFitsAux (8 + e.fc.nst * 4 + 4 + e.fic.length) (etiMsts e) = false
      · rw [if_pos h3] at hsome
        exact absurd hsome (by simp)
      · rw [if_neg h3] at hsome
        simp only [Option.some.injEq] at hsome
        subst hsome
        refine ⟨?_, ?_, hfic⟩
        · rw [getB67_layers 6 (by omega)]
          rw [getB_etiSTCWrites e _ 6 (by omega)]
          exact (getB_etiLayerA e).1
        · rw [getB67_layers 7 (by omega)]
          rw [getB_etiSTCWrites e _ 7 (by omega)]
          exact (getB_etiLayerA e).2

theorem foldl_add_eq_sum {α : Type} (g : α → Nat) :
    ∀ (xs : List α) (a : Nat), xs.foldl (fun acc x => acc + g x) a = a + (xs.map g).sum := by
  intro xs
  induction xs with
  | nil =>
      intro a
      simp
  | cons x rest ih =>
      intro a
      rw [List.foldl_cons, ih]
      simp only [List.map_cons, List.sum_cons]
      omega

theorem four_mul_sum_div (xs : List Nat) (h : ∀ x ∈ xs, 4 ∣ x) :
    4 * (xs.map (fun x => x / 4)).sum = xs.sum := by
  induction xs with
  | nil => simp
  | cons x rest ih =>
      simp only [List.map_cons, List.sum_cons, Nat.mul_add]
      rw [ih (fun y hy => h y (List.mem_cons_of_mem x hy))]
      rw [Nat.mul_div_cancel' (h x (List.mem_cons_self x rest))]

/-- C1 — FL formula of the assembled ETI-NI frame: the 11-bit FL field of
FC bytes 6-7 equals NST + 1 + fic_len/4 + Σ mst_len_i/4, and 4·FL is the
byte count from byte 4 through the end of the MST region
(NST·4 + 4 + FIC_len + Σ MST_len_i). -/
theorem eti_fl_formula (e : EdiEti) (frame : Bytes)
    (hsome : assembleEtiFrame e = some frame)
    (hfp : e.fc.fp < 8) (hmid : e.fc.mid < 4)
    (hfl : e.fc.nst + 1 + e.fic.length / 4 +
      ((List.range e.fc.nst).map
        (fun i => (e.subchannels.getD i {}).mst.length / 4)).sum < 2048)
    (hdiv : ∀ i, i < e.fc.nst → 4 ∣ (e.subchannels.getD i {}).mst.length) :
    ((getB frame 6 <<< 8) ||| getB frame 7) &&& 0x7FF
      = e.fc.nst + 1 + e.fic.length / 4 +
        ((List.range e.fc.nst).map
          (fun i => (e.subchannels.getD i {}).mst.length / 4)).sum ∧
    4 * (((getB frame 6 <<< 8) ||| getB frame 7) &&& 0x7FF)
      = 4 * e.fc.nst + 4 + e.fic.length +
        ((List.range e.fc.nst).map (fun i => (e.subchannels.getD i {}).mst.length)).sum := by
  obtain ⟨h6, h7, hfic⟩ := eti_frame_bytes67 e frame hsome
  set S4 := ((List.range e.fc.nst).map
    (fun i => (e.subchannels.getD i {}).mst.length / 4)).sum with hS4
  have hsum : (List.range e.fc.nst).foldl
      (fun acc i => acc + (e.subchannels.getD i {}).mst.length / 4) 0 = S4 := by
    rw [foldl_add_eq_sum]
    rw [hS4]
    omega
  have hFLval : etiFL e = e.fc.nst + 1 + e.fic.length / 4 + S4 := by
    unfold etiFL
    rw [hsum]
    exact Nat.mod_eq_of_lt (by omega)
  have hb13 : e.fc.mid <<< 11 < 2 ^ 13 := by
    rw [Nat.shiftLeft_eq, show (2:Nat) ^ 11 = 2048 from rfl]
    have : e.fc.mid * 2048 ≤ 3 * 2048 := Nat.mul_le_mul_right _ (by omega)
    norm_num at this ⊢
    omega
  have hlt11 : e.fc.nst + 1 + e.fic.length / 4 + S4 < 2 ^ 11 := by
    rw [show (2:Nat) ^ 11 = 2048 from rfl]
    omega
  have hx : etiFpMidFl e
      = e.fc.fp * 8192 + e.fc.mid * 2048 + (e.fc.nst + 1 + e.fic.length / 4 + S4) := by
    unfold etiFpMidFl
    rw [hFLval]
    rw [shiftLeft_or_eq_add e.fc.fp (e.fc.mid <<< 11) 13 hb13]
    rw [Nat.shiftLeft_eq e.fc.mid 11]
    rw [show e.fc.fp * 2 ^ 13 + e.fc.mid * 2 ^ 11
        = 2 ^ 11 * (e.fc.fp * 4 + e.fc.mid) by ring]
    rw [← Nat.mul_add_lt_is_or hlt11 (e.fc.fp * 4 + e.fc.mid)]
    rw [Nat.mod_eq_of_lt (by
      rw [show (2:Nat) ^ 11 = 2048 from rfl]
      have : e.fc.fp * 4 + e.fc.mid ≤ 31 := by omega
      omega)]
    ring
  rw [h6, h7]
  have hre : ((etiFpMidFl e >>> 8) <<< 8) ||| (etiFpMidFl e &&& 0xFF) = etiFpMidFl e := by
    rw [Nat.shiftRight_eq_div_pow]
    rw [show (0xFF : Nat) = 2 ^ 8 - 1 from rfl, and_two_pow_sub_one]
    rw [show (2:Nat) ^ 8 = 256 from rfl]
    exact be16_roundtrip _
  rw [hre]
  have hmask : etiFpMidFl e &&& 0x7FF = e.fc.nst + 1 + e.fic.length / 4 + S4 := by
    rw [show (0x7FF : Nat) = 2 ^ 11 - 1 from rfl, and_two_pow_sub_one]
    rw [hx]
    rw [show (2:Nat) ^ 11 = 2048 from rfl]
    omega
  rw [hmask]
  refine ⟨rfl, ?_⟩
  have hficdvd : 4 ∣ e.fic.length := by
    rw [hfic]
    by_cases hm : e.fc.mid = 3
    · rw [if_pos hm]
      decide
    · rw [if_neg hm]
      decide
  have h4f : 4 * (e.fic.length / 4) = e.fic.length := Nat.mul_div_cancel' hficdvd
  have h4s : 4 * S4 = ((List.range e.fc.nst).map
      (fun i => (e.subchannels.getD i {}).mst.length)).sum := by
    rw [hS4]
    rw [show (List.range e.fc.nst).map
          (fun i => (e.subchannels.getD i {}).mst.length / 4)
        = ((List.range e.fc.nst).map
            (fun i => (e.subchannels.getD i {}).mst.length)).map (fun x => x / 4) by
      rw [List.map_map]
      rfl]
    apply four_mul_sum_div
    intro x hmx
    obtain ⟨i, hi, hix⟩ := List.mem_map.mp hmx
    rw [← hix]
    exact hdiv i (List.mem_range.mp hi)
  omega

/-- A small concrete EDI collation: one sub-channel, 96-byte FIC, 8-byte MST. -/
def ediC : EdiEti :=
  { is_eti := true, fc_valid := true, err := 0xFF,
    fc := { dflc := 0, ficf := true, nst := 1, fp := 0, mid := 1, tsta := 0 },
    fic := List.replicate 96 0,
    subchannels := [{ scid := 0, sad := 0, tpl := 0, mst := List.replicate 8 0 }],
    mnsc := 0, rfu := 0 }

theorem eti_fl_formula_witness :
    4 * (((getB ((assembleEtiFrame ediC).getD []) 6 <<< 8) |||
        getB ((assembleEtiFrame ediC).getD []) 7) &&& 0x7FF)
      = 4 * 1 + 4 + 96 + 8 := by
  have hs : (assembleEtiFrame ediC).isSome = true := by decide
  have hsome : assembleEtiFrame ediC = some ((assembleEtiFrame ediC).getD []) := by
    obtain ⟨v, hv⟩ := Option.isSome_iff_exists.mp hs
    rw [hv]
    rfl
  have h := (eti_fl_formula ediC ((assembleEtiFrame ediC).getD []) hsome
    (by decide) (by decide) (by decide)
    (by
      intro i hi
      have hn : ediC.fc.nst = 1 := rfl
      rw [hn] at hi
      interval_cases i
      decide)).2
  rw [h]
  decide

end Dvbdab
